import Mathlib

/-!
Verification of `makePrcKey.cxx` (panda3d, `dtool/src/prckeys`), the
command-line tool that generates RSA key pairs for signing prc files and
emits them as compilable C++ source.  The definitions below are a shallow
embedding of the functions of that file: byte strings are `List Nat`
(each element `< 256`), emitted text is `List Char`, and the effects of
`main` are modelled as a pure function from the parsed inputs and an
oracle for the OpenSSL / file-system outcomes to an exit code and a trace
of written files.
-/

namespace MakePrcKey

/-- One lower-case hexadecimal digit character, as produced by
`std::hex` with `std::setfill('0')` in `output_c_string`. -/
def hexDigit (n : Nat) : Char :=
  if n < 10 then Char.ofNat (48 + n) else Char.ofNat (87 + n)

/-- `isprint` in the C locale, applied to a plain `char` as
`output_c_string` does: true exactly on the printable ASCII range
0x20..0x7E; bytes with the high bit set are not printable. -/
def isPrintByte (b : Nat) : Bool := 32 ≤ b && b ≤ 126

/-- The escaping loop of `output_c_string` (makePrcKey.cxx lines 84-107).
`last_nl` records whether the previous byte was a newline; if so, the
string literal is broken before the next character with a closing quote,
a line break, two spaces of indentation and a reopening quote.  A newline
byte emits the two-character escape `\n`, a tab byte emits `\t`, a
printable byte is copied verbatim, and every other byte emits the
four-character hex escape `\xhh`. -/
def escapeLoop : List Nat → Bool → List Char
  | [], _ => []
  | b :: rest, last_nl =>
    if b = 10 then '\\' :: 'n' :: escapeLoop rest true
    else
      (if last_nl then ['"', '\n', ' ', ' ', '"'] else []) ++
      (if b = 9 then ['\\', 't']
       else if isPrintByte b then [Char.ofNat b]
       else ['\\', 'x', hexDigit (b / 16), hexDigit (b % 16)]) ++
      escapeLoop rest false

/-- The two declarations emitted by `output_c_string` (lines 74-110):
the body of the string literal (the characters standing between its
quotes, line-break apparatus included) and the `<name><index>_length`
constant, which is `data_size`, the original byte count. -/
structure CString where
  content : List Char
  lengthConst : Nat
deriving DecidableEq

/-- `output_c_string` (makePrcKey.cxx lines 74-110). -/
def output_c_string (bytes : List Nat) : CString :=
  { content := escapeLoop bytes false, lengthConst := bytes.length }

/-- Value of a hexadecimal digit character as emitted by `hexDigit`. -/
def hexVal (c : Char) : Option Nat :=
  if '0' ≤ c ∧ c ≤ '9' then some (c.toNat - 48)
  else if 'a' ≤ c ∧ c ≤ 'f' then some (c.toNat - 87)
  else none

/-- Un-escaping the emitted literal text according to the documented
byte-by-byte rules: `\n` and `\t` are two-character escapes for the
newline and tab bytes, `\xhh` is a four-character hex escape, the
literal-break sequence (closing quote, line break, two spaces, reopening
quote) that follows an escaped newline is line-break apparatus and not
content, and every other character stands for its own code point.
An ill-formed escape yields `none`. -/
def unescape : List Char → Option (List Nat)
  | [] => some []
  | c :: rest =>
    if c = '"' ∧ rest.take 4 = ['\n', ' ', ' ', '"'] then
      unescape (rest.drop 4)
    else if c = '\\' then
      match rest with
      | 'n' :: rest2 => (unescape rest2).map (fun bs => 10 :: bs)
      | 't' :: rest2 => (unescape rest2).map (fun bs => 9 :: bs)
      | 'x' :: h1 :: h2 :: rest2 =>
        match hexVal h1, hexVal h2 with
        | some d1, some d2 => (unescape rest2).map (fun bs => (16 * d1 + d2) :: bs)
        | _, _ => none
      | _ => none
    else (unescape rest).map (fun bs => c.toNat :: bs)
termination_by l => l.length
decreasing_by
  all_goals simp_wf
  all_goals have h4 := List.length_drop 4 rest
  all_goals omega

lemma toNat_ofNat_lt (b : Nat) (h : b < 55296) : (Char.ofNat b).toNat = b := by
  unfold Char.ofNat
  rw [dif_pos (Or.inl h)]
  simp [Char.ofNatAux, Char.toNat, UInt32.toNat, UInt32.ofNat,
    Nat.mod_eq_of_lt (by omega : b < 4294967296)]

lemma hexVal_hexDigit (n : Nat) (h : n < 16) : hexVal (hexDigit n) = some n := by
  interval_cases n <;> decide

/-- The literal body emitted with `last_nl = false` never starts with a raw
line break: a newline byte is escaped, and the break apparatus only appears
after one. -/
lemma escapeLoop_false_ne_nl (l : List Nat) :
    escapeLoop l false = [] ∨
      ∃ c t, escapeLoop l false = c :: t ∧ c ≠ '\n' := by
  cases l with
  | nil => exact Or.inl rfl
  | cons b rest =>
    right
    by_cases h10 : b = 10
    · exact ⟨'\\', 'n' :: escapeLoop rest true,
        by simp [escapeLoop, h10], by decide⟩
    · by_cases h9 : b = 9
      · exact ⟨'\\', 't' :: escapeLoop rest false,
          by simp [escapeLoop, h10, h9], by decide⟩
      · by_cases hp : isPrintByte b
        · refine ⟨Char.ofNat b, escapeLoop rest false,
            by simp [escapeLoop, h10, h9, hp], ?_⟩
          intro hc
          have hb : 32 ≤ b ∧ b ≤ 126 := by simpa [isPrintByte] using hp
          have := toNat_ofNat_lt b (by omega)
          rw [hc] at this
          simp at this
          omega
        · exact ⟨'\\', 'x' :: hexDigit (b / 16) :: hexDigit (b % 16) ::
            escapeLoop rest false, by simp [escapeLoop, h10, h9, hp], by decide⟩

lemma unescape_cons_break (t : List Char) :
    unescape ('"' :: '\n' :: ' ' :: ' ' :: '"' :: t) = unescape t := by
  simp [unescape]

lemma unescape_cons_bslash_n (t : List Char) :
    unescape ('\\' :: 'n' :: t) = (unescape t).map (fun bs => 10 :: bs) := by
  simp [unescape]

lemma unescape_cons_bslash_t (t : List Char) :
    unescape ('\\' :: 't' :: t) = (unescape t).map (fun bs => 9 :: bs) := by
  simp [unescape]

lemma unescape_cons_bslash_x (h1 h2 : Char) (d1 d2 : Nat) (t : List Char)
    (e1 : hexVal h1 = some d1) (e2 : hexVal h2 = some d2) :
    unescape ('\\' :: 'x' :: h1 :: h2 :: t) =
      (unescape t).map (fun bs => (16 * d1 + d2) :: bs) := by
  simp [unescape, e1, e2]

lemma unescape_cons_plain (c : Char) (t : List Char)
    (hq : c = '"' → t.take 4 ≠ ['\n', ' ', ' ', '"'])
    (hb : c ≠ '\\') :
    unescape (c :: t) = (unescape t).map (fun bs => c.toNat :: bs) := by
  have h1 : ¬(c = '"' ∧ t.take 4 = ['\n', ' ', ' ', '"']) := by
    rintro ⟨rfl, h4⟩
    exact hq rfl h4
  rw [unescape.eq_def]
  simp only [if_neg h1, if_neg hb]

/-- Round trip of the escaping loop for byte sequences free of the
backslash byte, for either value of `last_nl`. -/
lemma unescape_escapeLoop (bytes : List Nat)
    (h : ∀ b ∈ bytes, b < 256 ∧ b ≠ 92) :
    ∀ last_nl, unescape (escapeLoop bytes last_nl) = some bytes := by
  induction bytes with
  | nil => intro last_nl; simp [escapeLoop, unescape]
  | cons b rest ih =>
    intro last_nl
    obtain ⟨hb256, hb92⟩ := h b (List.mem_cons_self _ _)
    have hrest : ∀ x ∈ rest, x < 256 ∧ x ≠ 92 :=
      fun x hx => h x (List.mem_cons_of_mem _ hx)
    by_cases h10 : b = 10
    · subst h10
      have he : escapeLoop (10 :: rest) last_nl =
          '\\' :: 'n' :: escapeLoop rest true := by
        simp [escapeLoop]
      rw [he, unescape_cons_bslash_n, ih hrest true]
      rfl
    · have key : unescape
          ((if b = 9 then ['\\', 't']
            else if isPrintByte b then [Char.ofNat b]
            else ['\\', 'x', hexDigit (b / 16), hexDigit (b % 16)]) ++
           escapeLoop rest false) = some (b :: rest) := by
        by_cases h9 : b = 9
        · subst h9
          have he : ((if (9 : Nat) = 9 then ['\\', 't']
              else if isPrintByte 9 then [Char.ofNat 9]
              else ['\\', 'x', hexDigit (9 / 16), hexDigit (9 % 16)]) ++
              escapeLoop rest false) = '\\' :: 't' :: escapeLoop rest false := by
            simp
          rw [he, unescape_cons_bslash_t, ih hrest false]
          rfl
        · by_cases hp : isPrintByte b
          · simp only [if_neg h9, if_pos hp, List.cons_append, List.nil_append]
            have hble : b < 55296 := by
              have : 32 ≤ b ∧ b ≤ 126 := by simpa [isPrintByte] using hp
              omega
            rw [unescape_cons_plain]
            · rw [ih hrest false]
              simp [toNat_ofNat_lt b hble]
            · intro _
              rcases escapeLoop_false_ne_nl rest with he | ⟨c, t, he, hc⟩
              · rw [he]; decide
              · rw [he]
                intro hcontra
                have h4 : List.take 4 (c :: t) = c :: List.take 3 t := rfl
                rw [h4] at hcontra
                exact hc (List.cons_eq_cons.mp hcontra).1
            · intro hc
              apply hb92
              have := toNat_ofNat_lt b hble
              rw [hc] at this
              simpa using this.symm
          · simp only [if_neg h9, if_neg hp, List.cons_append, List.nil_append]
            rw [unescape_cons_bslash_x _ _ (b / 16) (b % 16) _
              (hexVal_hexDigit _ (by omega))
              (hexVal_hexDigit _ (Nat.mod_lt _ (by norm_num)))]
            rw [ih hrest false]
            simp [Nat.div_add_mod]
      cases last_nl
      · simpa [escapeLoop, if_neg h10] using key
      · simp only [escapeLoop, if_neg h10, if_pos trivial, List.cons_append,
          List.nil_append, List.append_assoc]
        rw [unescape_cons_break]
        exact key

/-- C1 (counterexample): the round-trip fails as universally stated.  The
backslash byte 0x5C is printable, so `output_c_string` copies it verbatim;
for the input bytes 0x5C 0x6E (the two characters `\` `n`) the emitted
literal body reads `\n`, which the documented un-escaping rules decode as
the single newline byte, not the original two bytes. -/
theorem C1_counterexample :
    unescape (output_c_string [92, 110]).content = some [10] ∧
      some [10] ≠ some ([92, 110] : List Nat) := by
  constructor
  · simp [output_c_string, escapeLoop, isPrintByte, unescape]
  · decide

/-- C1 (amended): for every byte sequence that contains no backslash byte
(0x5C — which is printable, copied verbatim, and collides with the escape
syntax), un-escaping the emitted string literal by the documented
byte-by-byte rules reproduces exactly the original bytes — including
embedded newlines, tabs, NUL-adjacent control bytes and high-bit bytes —
and the emitted length constant equals the original byte count, not the
escaped text length. -/
theorem C1_roundtrip (bytes : List Nat)
    (h : ∀ b ∈ bytes, b < 256 ∧ b ≠ 92) :
    unescape (output_c_string bytes).content = some bytes ∧
      (output_c_string bytes).lengthConst = bytes.length :=
  ⟨unescape_escapeLoop bytes h false, rfl⟩

/-- C1 witness: the amended round trip at a concrete input holding a
newline, a tab, a NUL, a high-bit byte and a printable byte. -/
theorem C1_roundtrip_witness :
    unescape (output_c_string [10, 9, 0, 200, 65]).content =
        some [10, 9, 0, 200, 65] ∧
      (output_c_string [10, 9, 0, 200, 65]).lengthConst = 5 :=
  C1_roundtrip [10, 9, 0, 200, 65] (by decide)

/-! ## Trust-level token parsing (makePrcKey.cxx lines 406-428) -/

/-- C `isspace` in the C locale: space, `\t`, `\n`, `\v`, `\f`, `\r`. -/
def isSpaceChar (c : Char) : Bool :=
  c.toNat = 32 || (9 ≤ c.toNat && c.toNat ≤ 13)

/-- Decimal digit. -/
def isDecDigit (c : Char) : Bool :=
  48 ≤ c.toNat && c.toNat ≤ 57

/-- Digit value of a character for `strtol`-style parsing: `0`-`9`,
`a`-`z`, `A`-`Z`. -/
def digitVal (c : Char) : Option Nat :=
  if 48 ≤ c.toNat ∧ c.toNat ≤ 57 then some (c.toNat - 48)
  else if 97 ≤ c.toNat ∧ c.toNat ≤ 122 then some (c.toNat - 87)
  else if 65 ≤ c.toNat ∧ c.toNat ≤ 90 then some (c.toNat - 55)
  else none

/-- Longest leading run of digits valid in `base`, with the remainder. -/
def takeDigits (base : Nat) : List Char → List Nat × List Char
  | [] => ([], [])
  | c :: rest =>
    match digitVal c with
    | some d =>
      if d < base then
        let p := takeDigits base rest
        (d :: p.1, p.2)
      else ([], c :: rest)
    | none => ([], c :: rest)

/-- Value of a digit run, most significant first. -/
def digitsToNat (base : Nat) (ds : List Nat) : Nat :=
  ds.foldl (fun a d => a * base + d) 0

/-- `strtol(nptr, &endptr, 0)` as called at makePrcKey.cxx line 410:
skips leading white space, takes an optional sign, selects the base from
a `0x`/`0X` or `0` prefix (hexadecimal, octal) and decimal otherwise,
consumes the longest valid digit run, and on no conversion returns 0
with the end pointer at the start of the string.  The value is the exact
mathematical integer; `clampLong` below applies the `LONG_MIN`/`LONG_MAX`
saturation and `wrap32` the `(int)` narrowing of the call site. -/
def strtol0 (s : List Char) : Int × List Char :=
  let t := s.dropWhile isSpaceChar
  let neg : Bool := t.head? = some '-'
  let u := if t.head? = some '-' ∨ t.head? = some '+' then t.tail else t
  let core : Option (Nat × List Char) :=
    if u.head? = some '0' then
      if u.tail.head? = some 'x' ∨ u.tail.head? = some 'X' then
        let td := takeDigits 16 u.tail.tail
        if td.1 = [] then some (0, u.tail)
        else some (digitsToNat 16 td.1, td.2)
      else
        let td := takeDigits 8 u
        some (digitsToNat 8 td.1, td.2)
    else
      let td := takeDigits 10 u
      if td.1 = [] then none
      else some (digitsToNat 10 td.1, td.2)
  match core with
  | none => (0, s)
  | some (v, r) => (if neg then -(v : Int) else (v : Int), r)

/-- `LONG_MIN`/`LONG_MAX` saturation performed by `strtol` (LP64). -/
def clampLong (v : Int) : Int :=
  if v < -(2 ^ 63) then -(2 ^ 63)
  else if 2 ^ 63 - 1 < v then 2 ^ 63 - 1
  else v

/-- The `(int)` narrowing of the `strtol` result (two's complement). -/
def wrap32 (v : Int) : Int :=
  (v + 2 ^ 31) % 2 ^ 32 - 2 ^ 31

/-- One parsed trust-level request (`class KeyNumber`,
makePrcKey.cxx lines 36-41). -/
structure KeyNumber where
  number : Int
  got_pass_phrase : Bool
  pass_phrase : List Char
deriving DecidableEq

/-- The two fatal rejections of a positional token (lines 418-426). -/
inductive ParseKeyErr where
  | notInteger (tok : List Char)
  | notPositive (n : Int)
deriving DecidableEq

/-- The text written to `cerr` for each rejection.  `notInteger` quotes
the literal token (`argv[i]`); `notPositive` prints `key._number`, the
parsed integer, via `operator<<(int)`. -/
def parseErrMessage : ParseKeyErr → List Char
  | .notInteger tok =>
    ("Parameter '".data ++ tok ++ "' should be an integer.".data)
  | .notPositive n =>
    ("Key numbers must be greater than 0; you specified ".data ++
      (toString n).data ++ ".".data)

/-- Parsing of one positional trust-level token (makePrcKey.cxx lines
407-427): `strtol` with base 0 and the `(int)` cast, the `,"pass phrase"`
suffix overriding the global `-p` phrase, the non-integer-token check on
`*endptr`, and the `> 0` lower bound. -/
def parseKeyToken (got_pass_phrase : Bool) (pass_phrase : List Char)
    (tok : List Char) : Except ParseKeyErr KeyNumber :=
  let r := strtol0 tok
  let number := wrap32 (clampLong r.1)
  let phr : Except ParseKeyErr (Bool × List Char) :=
    if r.2.head? = some ',' then .ok (true, r.2.tail)
    else if r.2 = [] then .ok (got_pass_phrase, pass_phrase)
    else .error (.notInteger tok)
  match phr with
  | .error e => .error e
  | .ok (gp, pp) =>
    if number ≤ 0 then .error (.notPositive number)
    else .ok ⟨number, gp, pp⟩

/-- Numeric value of a decimal digit string, most significant first. -/
def decValue (ds : List Char) : Nat :=
  ds.foldl (fun a c => a * 10 + (c.toNat - 48)) 0

lemma takeDigits_all_dec (ds : List Char)
    (h : ∀ c ∈ ds, isDecDigit c = true) :
    takeDigits 10 ds = (ds.map (fun c => c.toNat - 48), []) := by
  induction ds with
  | nil => rfl
  | cons c rest ih =>
    have hcn : 48 ≤ c.toNat ∧ c.toNat ≤ 57 := by
      simpa [isDecDigit] using h c (List.mem_cons_self _ _)
    have hdv : digitVal c = some (c.toNat - 48) := by
      simp [digitVal, hcn.1, hcn.2]
    simp only [takeDigits, hdv]
    rw [if_pos (by omega : c.toNat - 48 < 10)]
    simp [ih fun x hx => h x (List.mem_cons_of_mem _ hx)]

lemma digitsToNat_map_dec (ds : List Char) :
    digitsToNat 10 (ds.map (fun c => c.toNat - 48)) = decValue ds := by
  simp [digitsToNat, decValue, List.foldl_map]

lemma wrap32_clampLong_id (v : Int) (h1 : -(2 ^ 31) ≤ v) (h2 : v < 2 ^ 31) :
    wrap32 (clampLong v) = v := by
  have hc : clampLong v = v := by
    unfold clampLong
    rw [if_neg (by omega), if_neg (by omega)]
  rw [hc]
  unfold wrap32
  rw [Int.emod_eq_of_lt (by omega) (by omega)]
  omega

/-- Evaluation of `strtol0` on a pure decimal digit token whose first
digit is not `0`. -/
lemma strtol0_digits (ds : List Char) (hne : ds ≠ [])
    (hall : ∀ c ∈ ds, isDecDigit c = true) (h0 : ds.head? ≠ some '0') :
    strtol0 ds = ((decValue ds : Int), []) := by
  obtain ⟨d, rest, rfl⟩ := List.exists_cons_of_ne_nil hne
  have hdn : 48 ≤ d.toNat ∧ d.toNat ≤ 57 := by
    simpa [isDecDigit] using hall d (List.mem_cons_self _ _)
  have hdw : List.dropWhile isSpaceChar (d :: rest) = d :: rest := by
    rw [List.dropWhile_cons, if_neg]
    simp only [isSpaceChar, Bool.or_eq_true, decide_eq_true_eq,
      Bool.and_eq_true]
    omega
  have hdm : d ≠ '-' := fun hEq => by subst hEq; revert hdn; decide
  have hdp : d ≠ '+' := fun hEq => by subst hEq; revert hdn; decide
  have htd : takeDigits 10 (d :: rest) =
      ((d :: rest).map (fun c => c.toNat - 48), []) :=
    takeDigits_all_dec _ hall
  have hmne : (d :: rest).map (fun c => c.toNat - 48) ≠ [] := by simp
  have hd0 : d ≠ '0' := fun hEq => h0 (by simp [hEq])
  simp only [strtol0, hdw, List.head?_cons, Option.some.injEq, hdm, hdp,
    or_self, if_false, if_neg h0, htd, if_neg hmne, digitsToNat_map_dec]
  simp [hd0, htd, hmne, digitsToNat_map_dec]

/-- Evaluation of `strtol0` on a minus sign followed by decimal digits,
the first not `0`. -/
lemma strtol0_neg_digits (ds : List Char) (hne : ds ≠ [])
    (hall : ∀ c ∈ ds, isDecDigit c = true) (h0 : ds.head? ≠ some '0') :
    strtol0 ('-' :: ds) = (-(decValue ds : Int), []) := by
  obtain ⟨d, rest, rfl⟩ := List.exists_cons_of_ne_nil hne
  have hdw : List.dropWhile isSpaceChar ('-' :: d :: rest) =
      '-' :: d :: rest := by
    rw [List.dropWhile_cons, if_neg (by decide)]
  have htd : takeDigits 10 (d :: rest) =
      ((d :: rest).map (fun c => c.toNat - 48), []) :=
    takeDigits_all_dec _ hall
  have hmne : (d :: rest).map (fun c => c.toNat - 48) ≠ [] := by simp
  have hd0 : d ≠ '0' := fun hEq => h0 (by simp [hEq])
  simp only [strtol0, hdw, List.head?_cons, Option.some.injEq, List.tail_cons,
    if_pos (Or.inl rfl), htd, digitsToNat_map_dec]
  simp [hd0, htd, hmne, digitsToNat_map_dec]
  simp [digitsToNat, decValue, List.foldl_map]

/-- C2 (counterexample): the token `-05` parses to the integer -5 and is
fatally rejected, but the message renders the parsed integer (`-5`) and
does not contain the literal token `-05` as it appeared on the command
line. -/
theorem C2_counterexample :
    parseKeyToken false [] "-05".data = .error (.notPositive (-5)) ∧
      ¬ ("-05".data <:+: parseErrMessage (.notPositive (-5))) :=
  ⟨rfl, by decide⟩

/-- C2 (amended): for every positional trust-level token, parsing accepts
if and only if the parsed integer is positive: a canonically spelled
decimal token of value `n` (in `int` range) is accepted exactly when
`n > 0`; the token `0` and a minus sign before digits are rejected as
non-positive; a token whose leading part is not an integer is rejected
with a fatal usage error that names the literal token; but the
non-positive rejection reports the parsed integer in canonical decimal
form, which need not be the literal token as it appeared on the command
line (see the counterexample `-05`). -/
theorem C2_trust_level_validation :
    (∀ (g : Bool) (pp ds : List Char),
        ds ≠ [] → (∀ c ∈ ds, isDecDigit c = true) →
        ds.head? ≠ some '0' → decValue ds < 2 ^ 31 →
        (0 < decValue ds →
          parseKeyToken g pp ds = .ok ⟨(decValue ds : Int), g, pp⟩) ∧
        parseKeyToken g pp ('-' :: ds) =
          .error (.notPositive (-(decValue ds : Int)))) ∧
    (∀ (g : Bool) (pp : List Char),
        parseKeyToken g pp ['0'] = .error (.notPositive 0)) ∧
    (∀ (g : Bool) (pp : List Char) (c : Char) (rest : List Char),
        isDecDigit c = false → isSpaceChar c = false →
        c ≠ '-' → c ≠ '+' → c ≠ ',' →
        parseKeyToken g pp (c :: rest) = .error (.notInteger (c :: rest)) ∧
        (c :: rest) <:+: parseErrMessage (.notInteger (c :: rest))) ∧
    (∀ (g : Bool) (pp tok : List Char) (k : KeyNumber),
        parseKeyToken g pp tok = .ok k → 0 < k.number) := by
  refine ⟨?_, ?_, ?_, ?_⟩
  · intro g pp ds hne hall h0 hlt
    constructor
    · intro hpos
      have hv0 : (0 : Int) ≤ (decValue ds : Int) := Int.natCast_nonneg _
      have hvlt : (decValue ds : Int) < 2 ^ 31 := by exact_mod_cast hlt
      simp only [parseKeyToken, strtol0_digits ds hne hall h0]
      rw [wrap32_clampLong_id _ (by omega) hvlt]
      have hposZ : ¬ ((decValue ds : Int) ≤ 0) := by
        have : (0 : Int) < (decValue ds : Int) := by exact_mod_cast hpos
        omega
      simp [hposZ]
    · have hv0 : (0 : Int) ≤ (decValue ds : Int) := Int.natCast_nonneg _
      have hvlt : (decValue ds : Int) < 2 ^ 31 := by exact_mod_cast hlt
      simp only [parseKeyToken, strtol0_neg_digits ds hne hall h0]
      rw [wrap32_clampLong_id _ (by omega) (by omega)]
      simp
  · intro g pp
    rfl
  · intro g pp c rest hdec hsp hm hp hcomma
    have hc0 : c ≠ '0' := fun hEq => by
      subst hEq
      exact absurd hdec (by decide)
    have hs : strtol0 (c :: rest) = (0, c :: rest) := by
      have hdw : List.dropWhile isSpaceChar (c :: rest) = c :: rest := by
        rw [List.dropWhile_cons, if_neg (by simp [hsp])]
      have htd : takeDigits 10 (c :: rest) = ([], c :: rest) := by
        rcases hdv : digitVal c with _ | dd
        · simp only [takeDigits, hdv]
        · have hge : ¬ dd < 10 := by
            unfold digitVal at hdv
            split_ifs at hdv with hA hB hC
            · exact absurd (by simp [isDecDigit]; omega : isDecDigit c = true)
                (by simp [hdec])
            · cases hdv
              omega
            · cases hdv
              omega
          simp only [takeDigits, hdv, if_neg hge]
      simp only [strtol0, hdw, List.head?_cons, Option.some.injEq, hm, hp,
        or_self, if_false, hc0, htd]
      simp [hc0, hm, hp]
    constructor
    · simp only [parseKeyToken, hs]
      simp [hcomma]
    · exact ⟨"Parameter '".data, "' should be an integer.".data,
        by simp [parseErrMessage]⟩
  · intro g pp tok k h
    simp only [parseKeyToken] at h
    split_ifs at h with h1 h2 h3 h4
    all_goals simp_all
    all_goals (subst h; simp; omega)

/-- C2 witness: the amended behaviour at concrete tokens `3`
(accepted) and `-3` (rejected as non-positive). -/
theorem C2_witness :
    parseKeyToken false [] ['3'] = .ok ⟨3, false, []⟩ ∧
      parseKeyToken false [] ('-' :: ['3']) = .error (.notPositive (-3)) := by
  have h := (C2_trust_level_validation.1 false [] ['3'] (by decide)
    (by decide) (by decide) (by decide))
  have e : (decValue ['3'] : Int) = 3 := by decide
  constructor
  · have := h.1 (by decide)
    rw [e] at this
    exact this
  · have := h.2
    rw [e] at this
    exact this

/-! ## Pass-phrase handling (makePrcKey.cxx lines 226-245 and 454-460) -/

/-- How `write_private_key` serializes the private key. -/
inductive PrivKeyForm where
  /-- Cleartext PKCS#8: `PEM_write_bio_PKCS8PrivateKey` with a null
  cipher (lines 232-233). -/
  | cleartext
  /-- PKCS#8 encrypted with `EVP_des_ede3_cbc` keyed by the phrase
  (lines 237-239). -/
  | encrypted (phrase : List Char)
  /-- The encrypting call with a null phrase pointer: OpenSSL falls back
  to its default callback, the interactive prompt (lines 237-239 with
  `pp == nullptr`). -/
  | promptDefault
deriving DecidableEq

/-- The pass phrase a key request carries into `write_private_key`:
`main` seeds each request with the global `-p` phrase when one was given
(lines 411-412), an inline `,"phrase"` overrides it (lines 414-417), and
the `pp` argument is null unless the request carries a phrase
(lines 457-460). -/
def effectivePassPhrase (globalPhrase inlinePhrase : Option (List Char)) :
    Option (List Char) :=
  match inlinePhrase with
  | some p => some p
  | none => globalPhrase

/-- The branch on `pp` in `write_private_key` (lines 229-240): a non-null
empty phrase selects the cleartext PKCS#8 form; any other case makes the
encrypting call, which with a null phrase pointer defers to the library
default (prompt). -/
def writePrivateKeyForm (pp : Option (List Char)) : PrivKeyForm :=
  match pp with
  | some p => if p = [] then .cleartext else .encrypted p
  | none => .promptDefault

/-- C3: the three-way pass-phrase rule.  With the effective phrase being
the inline one when given and otherwise the global `-p` one: an explicit
empty phrase yields the cleartext PKCS#8 form, a non-empty phrase yields
the form encrypted with a symmetric cipher keyed by that phrase, and no
phrase at all defers to the cryptographic library's prompt/default
behaviour. -/
theorem C3_pass_phrase_semantics :
    ∀ globalPhrase inlinePhrase : Option (List Char),
      (effectivePassPhrase globalPhrase inlinePhrase = some [] →
        writePrivateKeyForm (effectivePassPhrase globalPhrase inlinePhrase) =
          .cleartext) ∧
      (∀ p, effectivePassPhrase globalPhrase inlinePhrase = some p →
        p ≠ [] →
        writePrivateKeyForm (effectivePassPhrase globalPhrase inlinePhrase) =
          .encrypted p) ∧
      (effectivePassPhrase globalPhrase inlinePhrase = none →
        writePrivateKeyForm (effectivePassPhrase globalPhrase inlinePhrase) =
          .promptDefault) ∧
      (∀ p, inlinePhrase = some p →
        effectivePassPhrase globalPhrase inlinePhrase = some p) ∧
      (inlinePhrase = none →
        effectivePassPhrase globalPhrase inlinePhrase = globalPhrase) := by
  intro g i
  refine ⟨?_, ?_, ?_, ?_, ?_⟩
  · intro h
    rw [h]
    rfl
  · intro p h hne
    rw [h]
    simp [writePrivateKeyForm, hne]
  · intro h
    rw [h]
    rfl
  · intro p h
    simp [effectivePassPhrase, h]
  · intro h
    simp [effectivePassPhrase, h]

/-- C3 witness: an explicit inline empty phrase overrides a global phrase
and selects the cleartext form. -/
theorem C3_witness :
    writePrivateKeyForm (effectivePassPhrase (some "g".data) (some [])) =
      .cleartext :=
  (C3_pass_phrase_semantics (some "g".data) (some [])).1 rfl

/-! ## Private-key output filename substitution
(makePrcKey.cxx lines 438-477) -/

/-- Modelled from the spec: `Filename::get_fullpath_wo_extension` of the
`Filename` class, which is not part of the examined sources.  The spec
describes the private template as "a filename stem"; this strips the
extension — the part of the basename after its last dot — dot included. -/
def fullpathWoExtension (s : List Char) : List Char :=
  if (s.reverse.takeWhile (fun c => c ≠ '/')).any (fun c => c = '.') then
    ((s.reverse.dropWhile (fun c => c ≠ '.')).tail).reverse
  else s

/-- Modelled from the spec: `Filename::get_extension` (not part of the
examined sources): the part of the basename after its last dot, empty
when there is none. -/
def extensionOf (s : List Char) : List Char :=
  if (s.reverse.takeWhile (fun c => c ≠ '/')).any (fun c => c = '.') then
    (s.reverse.takeWhile (fun c => c ≠ '.')).reverse
  else []

/-- Modelled from the spec: `Filename::get_basename_wo_extension` (not
part of the examined sources): the basename with its extension
stripped. -/
def basenameWoExtension (s : List Char) : List Char :=
  fullpathWoExtension ((s.reverse.takeWhile (fun c => c ≠ '/')).reverse)

/-- The `prefix`/`suffix`/`got_hash` split of the private-key output
template (makePrcKey.cxx lines 438-452): `name.find('#')`, the part
before the first hash, and the part after it with `.cxx` re-appended. -/
structure PrivTemplate where
  pre : List Char
  suf : List Char
  got_hash : Bool
deriving DecidableEq

/-- Lines 442-452 of `main`. -/
def splitHash (name : List Char) : PrivTemplate :=
  match name.findIdx? (fun c => c = '#') with
  | none => ⟨name, ".cxx".data, false⟩
  | some i => ⟨name.take i, name.drop (i + 1) ++ ".cxx".data, true⟩

/-- Lines 465-477 of `main`: with an explicit hash mark the number is
always inserted; without one it is inserted only for a trust level other
than 1. -/
def privKeyFilename (tpl : PrivTemplate) (n : Int) : List Char :=
  if tpl.got_hash ∨ n ≠ 1 then tpl.pre ++ (toString n).data ++ tpl.suf
  else tpl.pre ++ tpl.suf

/-- The full path computation for one request: extension strip, hash
split, substitution. -/
def substPrivOutfile (template : List Char) (n : Int) : List Char :=
  privKeyFilename (splitHash (fullpathWoExtension template)) n

lemma findIdx_hash_append (before after : List Char) (h : '#' ∉ before) :
    (before ++ '#' :: after).findIdx? (fun c => c = '#') =
      some before.length := by
  induction before with
  | nil => simp [List.findIdx?_cons]
  | cons c t ih =>
    have hc : ¬ (c = '#') := fun hEq => h (by simp [hEq])
    have ht : '#' ∉ t := fun hmem => h (List.mem_cons_of_mem _ hmem)
    simp [List.findIdx?_cons, hc, ih ht]

lemma findIdx_hash_none (name : List Char) (h : '#' ∉ name) :
    name.findIdx? (fun c => c = '#') = none := by
  induction name with
  | nil => rfl
  | cons c t ih =>
    have hc : ¬ (c = '#') := fun hEq => h (by simp [hEq])
    have ht : '#' ∉ t := fun hmem => h (List.mem_cons_of_mem _ hmem)
    simp [List.findIdx?_cons, hc, ih ht]

/-- C4: filename substitution.  A template stem holding exactly one `#`
placeholder yields the stem with the `#` replaced by the trust level for
every level; a stem without a placeholder yields the bare name for level
1 and the name with the level inserted before the extension otherwise;
in particular `key#.cxx` with level 3 gives `key3.cxx`, `key.cxx` with
level 1 gives `key.cxx`, and `key.cxx` with level 2 gives `key2.cxx`. -/
theorem C4_filename_substitution :
    substPrivOutfile "key#.cxx".data 3 = "key3.cxx".data ∧
    substPrivOutfile "key.cxx".data 1 = "key.cxx".data ∧
    substPrivOutfile "key.cxx".data 2 = "key2.cxx".data ∧
    (∀ (before after : List Char) (n : Int),
      '#' ∉ before → '#' ∉ after →
      privKeyFilename (splitHash (before ++ '#' :: after)) n =
        before ++ (toString n).data ++ after ++ ".cxx".data) ∧
    (∀ (name : List Char) (n : Int), '#' ∉ name →
      privKeyFilename (splitHash name) 1 = name ++ ".cxx".data ∧
      (n ≠ 1 →
        privKeyFilename (splitHash name) n =
          name ++ (toString n).data ++ ".cxx".data)) := by
  refine ⟨by decide, by decide, by decide, ?_, ?_⟩
  · intro before after n hb ha
    have hsplit : splitHash (before ++ '#' :: after) =
        ⟨before, after ++ ".cxx".data, true⟩ := by
      have ht : (before ++ '#' :: after).take before.length = before := by
        simp
      have hd : (before ++ '#' :: after).drop (before.length + 1) = after := by
        have he : before ++ '#' :: after = (before ++ ['#']) ++ after := by simp
        rw [he]
        have hl : before.length + 1 = (before ++ ['#']).length := by simp
        rw [hl]
        exact List.drop_left _ _
      simp [splitHash, findIdx_hash_append before after hb, ht, hd]
    rw [hsplit]
    simp [privKeyFilename]
  · intro name n hn
    have hsplit : splitHash name = ⟨name, ".cxx".data, false⟩ := by
      unfold splitHash
      rw [findIdx_hash_none name hn]
    rw [hsplit]
    constructor
    · simp [privKeyFilename]
    · intro h1
      simp [privKeyFilename, h1]

/-- C4 witness: the general placeholder clause at `k#y` with level 7. -/
theorem C4_witness :
    privKeyFilename (splitHash ("k".data ++ '#' :: "y".data)) 7 =
      "k".data ++ (toString (7 : Int)).data ++ "y".data ++ ".cxx".data :=
  C4_filename_substitution.2.2.2.1 "k".data "y".data 7 (by decide) (by decide)

/-! ## The key registry and the public-key table
(makePrcKey.cxx lines 144-203 and 463) -/

/-- Modelled from the spec: the `PrcKeyRegistry` singleton
(`prcKeyRegistry.h`, not part of the examined sources).  Spec: an
"in-process table mapping a small integer trust-level identifier to a
public-key record (raw key material + generation timestamp)"; absent
slots still occupy their index so "positional alignment between array
index and trust level number" is preserved.  A slot holds the identifier
of a generated key (the call index of `generate_key` that produced it)
and the generation timestamp. -/
abbrev Registry : Type := List (Option (Nat × Nat))

/-- Modelled from the spec: `PrcKeyRegistry::set_key(n, pkey, now)`
"inserts or replaces the entry for `level`", growing the table so that
the key-number space always spans the highest recorded level. -/
def set_key (reg : Registry) (n : Nat) (k : Nat) (t : Nat) : Registry :=
  let padded : List (Option (Nat × Nat)) :=
    if List.length reg ≤ n then reg ++ List.replicate (n + 1 - List.length reg) none
    else reg
  padded.set n (some (k, t))

/-- Modelled from the spec: `PrcKeyRegistry::get_num_keys()`. -/
def get_num_keys (reg : Registry) : Nat := List.length reg

/-- Modelled from the spec: `PrcKeyRegistry::get_key(i)` paired with
`get_generated_time(i)`; `none` is the absent marker. -/
def get_slot (reg : Registry) (i : Nat) : Option (Nat × Nat) :=
  List.getD reg i none

/-- One row of the emitted `prc_pubkeys` table: a
`{ data, length, time }` triple for a populated slot — the data pointer
names that slot's `prc_pubkey<i>_data` blob — or the `{ nullptr, 0, 0 }`
triple for an absent slot. -/
inductive KeyDef where
  | present (dataIdx : Nat) (length : Nat) (time : Nat)
  | absent
deriving DecidableEq

/-- The public-key table source file written by `write_public_keys`
(makePrcKey.cxx lines 144-203): one escaped blob declaration per
populated slot, the fixed-size `prc_pubkeys` array with one row per slot
of the registry's key-number space, and the `num_prc_pubkeys` count
constant. -/
structure PubTableFile where
  blobs : List (Nat × CString)
  table : List KeyDef
  countConst : Nat
deriving DecidableEq

/-- `write_public_keys` content, as a function of the PEM serialization
of each key (`PEM_write_bio_PUBKEY`, abstracted as `pemPub` from the key
identifier to the bytes it writes). -/
def write_public_keys (pemPub : Nat → List Nat) (reg : Registry) :
    PubTableFile :=
  { blobs := (List.range (get_num_keys reg)).filterMap fun i =>
      (get_slot reg i).map fun e => (i, output_c_string (pemPub e.1)),
    table := (List.range (get_num_keys reg)).map fun i =>
      match get_slot reg i with
      | some e => KeyDef.present i (pemPub e.1).length e.2
      | none => KeyDef.absent,
    countConst := get_num_keys reg }

lemma getD_append_replicate_none (l : List (Option (Nat × Nat)))
    (k m : Nat) :
    (l ++ List.replicate k none).getD m none = l.getD m none := by
  rcases lt_or_ge m l.length with hm | hm
  · rw [List.getD_eq_getElem?_getD, List.getElem?_append_left hm,
      ← List.getD_eq_getElem?_getD]
  · rw [List.getD_eq_getElem?_getD, List.getElem?_append_right hm,
      List.getD_eq_getElem?_getD, List.getElem?_eq_none hm,
      List.getElem?_replicate]
    rcases lt_or_ge (m - l.length) k with hk | hk
    · simp [hk]
    · simp [Nat.not_lt.mpr hk]

lemma get_slot_set_key_self (reg : Registry) (n k t : Nat) :
    get_slot (set_key reg n k t) n = some (k, t) := by
  unfold get_slot set_key
  by_cases h : List.length reg ≤ n
  · rw [if_pos h, List.getD_eq_getElem?_getD, List.getElem?_set_self
      (by simp [List.length_replicate]; omega)]
    rfl
  · rw [if_neg h, List.getD_eq_getElem?_getD, List.getElem?_set_self
      (by omega)]
    rfl

lemma get_slot_set_key_ne (reg : Registry) (n k t m : Nat) (h : m ≠ n) :
    get_slot (set_key reg n k t) m = get_slot reg m := by
  unfold get_slot set_key
  by_cases hl : List.length reg ≤ n
  · rw [if_pos hl, List.getD_eq_getElem?_getD,
      List.getElem?_set_ne (by omega), ← List.getD_eq_getElem?_getD]
    exact getD_append_replicate_none reg _ m
  · rw [if_neg hl, List.getD_eq_getElem?_getD,
      List.getElem?_set_ne (by omega), ← List.getD_eq_getElem?_getD]

lemma length_set_key (reg : Registry) (n k t : Nat) :
    get_num_keys (set_key reg n k t) = max (get_num_keys reg) (n + 1) := by
  unfold get_num_keys set_key
  by_cases h : List.length reg ≤ n
  · rw [if_pos h]
    simp
    omega
  · rw [if_neg h]
    simp
    omega

/-- C5: for every registry state, the emitted public-key table is an
array whose declared length equals the registry's key-number space, each
populated slot `i` contributes a `{ data, length, time }` triple naming
that slot's serialized blob (with the length being the blob's byte
count), each absent slot contributes the null triple while occupying its
index, and the emitted count constant equals the array length; in
particular after recording only levels 1 and 3 the table has four rows
and row 2 is the null triple. -/
theorem C5_public_table_alignment :
    ∀ (pemPub : Nat → List Nat) (reg : Registry),
      (write_public_keys pemPub reg).table.length = get_num_keys reg ∧
      (write_public_keys pemPub reg).countConst = get_num_keys reg ∧
      (∀ i, i < get_num_keys reg →
        (write_public_keys pemPub reg).table.getD i .absent =
          (match get_slot reg i with
           | some e => KeyDef.present i (pemPub e.1).length e.2
           | none => KeyDef.absent)) ∧
      (∀ k1 t1 k2 t2,
        get_num_keys (set_key (set_key [] 1 k1 t1) 3 k2 t2) = 4 ∧
        (write_public_keys pemPub (set_key (set_key [] 1 k1 t1) 3 k2 t2)).table =
          [.absent, .present 1 (pemPub k1).length t1, .absent,
            .present 3 (pemPub k2).length t2]) := by
  intro pemPub reg
  refine ⟨by simp [write_public_keys], rfl, ?_, ?_⟩
  · intro i hi
    unfold write_public_keys
    rw [List.getD_eq_getElem?_getD, List.getElem?_map, List.getElem?_range hi]
    rfl
  · intro k1 t1 k2 t2
    constructor
    · rfl
    · rfl

/-- C5 witness: the alignment clause at a concrete registry with slot 0
absent and slot 1 populated. -/
theorem C5_witness :
    (write_public_keys (fun k => [k]) [none, some (5, 7)]).table.getD 1
        .absent = KeyDef.present 1 1 7 := by
  have h := (C5_public_table_alignment (fun k => [k])
    [none, some (5, 7)]).2.2.1 1 (by decide)
  simpa using h

/-! ## The run model of `main` (makePrcKey.cxx lines 324-485) -/

/-- One option event delivered by the `getopt` loop (lines 338-365).
`getopt` itself (`panda_getopt`) is outside the examined sources; the
events are its return values for `optstr = "a:b:p:h"`: a recognized
option with its argument, `-h`, or an unrecognized flag (`getopt`
returns `?`, falling to the `default:` case). -/
inductive FlagEvent where
  | optA (arg : List Char)
  | optB (arg : List Char)
  | optP (arg : List Char)
  | optH
  | optUnknown
deriving DecidableEq

/-- The option state accumulated by the `getopt` loop. -/
structure FlagState where
  pub_outfile : List Char
  got_pub_outfile : Bool
  priv_outfile : List Char
  got_priv_outfile : Bool
  pass_phrase : List Char
  got_pass_phrase : Bool
deriving DecidableEq

def initFlagState : FlagState := ⟨[], false, [], false, [], false⟩

/-- The `while (flag != EOF)` loop of `main` (lines 340-365): `-a`, `-b`
and `-p` store their argument; `-h` prints usage and exits 0; an
unrecognized flag exits 1.  The error value is the exit code. -/
def processFlags : List FlagEvent → FlagState → Except Nat FlagState
  | [], st => .ok st
  | .optA arg :: rest, st =>
    processFlags rest { st with pub_outfile := arg, got_pub_outfile := true }
  | .optB arg :: rest, st =>
    processFlags rest { st with priv_outfile := arg, got_priv_outfile := true }
  | .optP arg :: rest, st =>
    processFlags rest { st with pass_phrase := arg, got_pass_phrase := true }
  | .optH :: _, _ => .error 0
  | .optUnknown :: _, _ => .error 1

/-- The parse loop over the positional arguments (lines 406-428),
stopping at the first fatal token. -/
def parseKeyList (g : Bool) (pp : List Char) :
    List (List Char) → Except ParseKeyErr (List KeyNumber)
  | [] => .ok []
  | tok :: rest =>
    match parseKeyToken g pp tok with
    | .error e => .error e
    | .ok k => (parseKeyList g pp rest).map (fun ks => k :: ks)

/-- The contents of one generated private-key source file
(`write_private_key`, lines 209-260): the `prc_privkey<n>` blob emitted
through `output_c_string`, and the `KEY_NUMBER`, `KEY_DATA`/`KEY_LENGTH`,
`PROGNAME` and `GENERATED_TIME` definitions. -/
structure PrivFileContent where
  keyNumber : Int
  keyBlob : CString
  form : PrivKeyForm
  progname : List Char
  generatedTime : Nat
deriving DecidableEq

/-- The observable effects of a run, in order. -/
inductive Event where
  | genKey (callIdx : Nat) (level : Int)
  | wrotePriv (filename : List Char) (content : PrivFileContent)
  | wrotePub (filename : List Char) (file : PubTableFile)
deriving DecidableEq

/-- The outcomes of the external calls `main` makes, one run's worth:
whether the `i`-th `generate_key` call succeeds (`RSA_new`/`BN_new`/
`RSA_generate_key_ex`, lines 115-137), whether a path opens for writing,
whether the `i`-th `PEM_write_bio_PKCS8PrivateKey` call succeeds and the
bytes it writes, and the same for `PEM_write_bio_PUBKEY` per registry
slot.  The `i`-th successful `generate_key` call yields the key
identified by `i`. -/
structure Oracle where
  genOk : Nat → Bool
  openOk : List Char → Bool
  pemPrivOk : Nat → Bool
  pemPriv : Nat → PrivKeyForm → List Nat
  pemPubOk : Nat → Bool
  pemPub : Nat → List Nat

/-- `write_private_key` (lines 209-260) for request index `i` and key
`k`: fatal (exit 1) when the file cannot be opened or the PKCS#8 write
fails; otherwise the emitted content. -/
def write_private_key (orc : Oracle) (i k : Nat) (outfile : List Char)
    (n : Int) (now : Nat) (pp : Option (List Char)) :
    Except Nat PrivFileContent :=
  if ¬ orc.openOk outfile then .error 1
  else if ¬ orc.pemPrivOk i then .error 1
  else .ok
    { keyNumber := n,
      keyBlob := output_c_string (orc.pemPriv k (writePrivateKeyForm pp)),
      form := writePrivateKeyForm pp,
      progname := basenameWoExtension outfile,
      generatedTime := now }

/-- The generation loop of `main` (lines 454-480): for each request in
argument order, `generate_key` (fatal on failure), `set_key` into the
registry with the shared timestamp, filename substitution, and the
immediate `write_private_key`.  Returns the trace of events and either
the final registry or the exit code. -/
def generateLoop (orc : Oracle) (tpl : PrivTemplate) (now : Nat) :
    List KeyNumber → Nat → Registry → List Event →
      List Event × Except Nat Registry
  | [], _, reg, tr => (tr, .ok reg)
  | k :: rest, i, reg, tr =>
    if ¬ orc.genOk i then (tr, .error 1)
    else
      let pp : Option (List Char) :=
        if k.got_pass_phrase then some k.pass_phrase else none
      let reg2 := set_key reg k.number.toNat i now
      let fname := privKeyFilename tpl k.number
      match write_private_key orc i i fname k.number now pp with
      | .error c => (tr ++ [.genKey i k.number], .error c)
      | .ok content =>
        generateLoop orc tpl now rest (i + 1) reg2
          (tr ++ [.genKey i k.number, .wrotePriv fname content])

/-- The result of a run: the process exit status and the trace of
written files. -/
structure RunResult where
  exitCode : Nat
  events : List Event
deriving DecidableEq

/-- Public-path validation (lines 375-392): with `-a`, the `.cxx`
extension check; without it, the compiled-in
`PRC_PUBLIC_KEYS_FILENAME` (paired with the compiled-in registry that
`record_keys` pre-loads), fatal when absent or empty. -/
def resolvePubOutfile (st : FlagState)
    (compiledDefault : Option (List Char × Registry)) :
    Except Nat (List Char × Registry) :=
  if st.got_pub_outfile then
    (if extensionOf st.pub_outfile ≠ "cxx".data then .error 1
     else .ok (st.pub_outfile, ([] : Registry)))
  else
    match compiledDefault with
    | some pr => if pr.1 = [] then .error 1 else .ok pr
    | none => .error 1

/-- Every `PEM_write_bio_PUBKEY` call of `write_public_keys` succeeds:
one call per populated registry slot (lines 169-182). -/
def pubPemOkAll (orc : Oracle) (reg : Registry) : Bool :=
  (List.range (get_num_keys reg)).all fun i =>
    match get_slot reg i with
    | some _ => orc.pemPubOk i
    | none => true

/-- The final `write_public_keys` call (line 482; function at lines
144-203): fatal when the file cannot be opened or a
`PEM_write_bio_PUBKEY` call fails, otherwise the single public-table
write. -/
def writePubStage (orc : Oracle) (path : List Char) (reg : Registry)
    (tr : List Event) : RunResult :=
  if ¬ orc.openOk path then ⟨1, tr⟩
  else if ¬ pubPemOkAll orc reg then ⟨1, tr⟩
  else ⟨0, tr ++ [.wrotePub path (write_public_keys orc.pemPub reg)]⟩

/-- `main` after the `getopt` loop (makePrcKey.cxx lines 367-484): the
`argc < 2` usage check, public-path validation, private-path validation
(lines 394-404), the key list parse, the single `time(nullptr)` read
(line 436, the `now` argument), the hash split (lines 438-452), the
generation loop and the final public-table write. -/
def run_after_flags (orc : Oracle) (args : List (List Char))
    (compiledDefault : Option (List Char × Registry)) (now : Nat)
    (st : FlagState) : RunResult :=
  if args.length < 1 then ⟨1, []⟩
  else
    match resolvePubOutfile st compiledDefault with
    | .error c => ⟨c, []⟩
    | .ok pr =>
      if ¬ st.got_priv_outfile then ⟨1, []⟩
      else if extensionOf st.priv_outfile ≠ "cxx".data then ⟨1, []⟩
      else
        match parseKeyList st.got_pass_phrase st.pass_phrase args with
        | .error _ => ⟨1, []⟩
        | .ok keys =>
          match generateLoop orc
              (splitHash (fullpathWoExtension st.priv_outfile)) now keys 0
              pr.2 [] with
          | (tr, .error c) => ⟨c, tr⟩
          | (tr, .ok reg) => writePubStage orc pr.1 reg tr

/-- `main` (makePrcKey.cxx lines 324-485). -/
def run_main (orc : Oracle) (flags : List FlagEvent)
    (args : List (List Char))
    (compiledDefault : Option (List Char × Registry)) (now : Nat) :
    RunResult :=
  match processFlags flags initFlagState with
  | .error c => ⟨c, []⟩
  | .ok st => run_after_flags orc args compiledDefault now st

/-- The pass phrase pointer `main` builds for a request
(lines 457-460). -/
def reqPassPhrase (k : KeyNumber) : Option (List Char) :=
  if k.got_pass_phrase then some k.pass_phrase else none

/-- The content `write_private_key` emits for request index `i` when all
external calls succeed. -/
def privContent (orc : Oracle) (tpl : PrivTemplate) (now : Nat) (i : Nat)
    (k : KeyNumber) : PrivFileContent :=
  { keyNumber := k.number,
    keyBlob := output_c_string
      (orc.pemPriv i (writePrivateKeyForm (reqPassPhrase k))),
    form := writePrivateKeyForm (reqPassPhrase k),
    progname := basenameWoExtension (privKeyFilename tpl k.number),
    generatedTime := now }

/-- The two events one successful request contributes, in order. -/
def reqEvents (orc : Oracle) (tpl : PrivTemplate) (now : Nat) (i : Nat)
    (k : KeyNumber) : List Event :=
  [.genKey i k.number,
   .wrotePriv (privKeyFilename tpl k.number) (privContent orc tpl now i k)]

/-- The registry after recording the requests numbered from `i`. -/
def applyKeys (now : Nat) (i : Nat) (keys : List KeyNumber)
    (reg : Registry) : Registry :=
  (List.enumFrom i keys).foldl
    (fun r p => set_key r p.2.number.toNat p.1 now) reg

/-- All external calls of the loop succeed for the requests numbered
from `i`. -/
def loopCallsOk (orc : Oracle) (tpl : PrivTemplate) (i : Nat)
    (keys : List KeyNumber) : Prop :=
  ∀ p ∈ List.enumFrom i keys,
    orc.genOk p.1 = true ∧
    orc.openOk (privKeyFilename tpl p.2.number) = true ∧
    orc.pemPrivOk p.1 = true

lemma write_private_key_ok (orc : Oracle) (tpl : PrivTemplate) (now i : Nat)
    (k : KeyNumber)
    (ho : orc.openOk (privKeyFilename tpl k.number) = true)
    (hp : orc.pemPrivOk i = true) :
    write_private_key orc i i (privKeyFilename tpl k.number) k.number now
        (reqPassPhrase k) = .ok (privContent orc tpl now i k) := by
  unfold write_private_key privContent
  rw [if_neg (by simp [ho]), if_neg (by simp [hp])]

lemma generateLoop_ok (orc : Oracle) (tpl : PrivTemplate) (now : Nat) :
    ∀ (keys : List KeyNumber) (i : Nat) (reg : Registry) (tr : List Event),
      loopCallsOk orc tpl i keys →
      generateLoop orc tpl now keys i reg tr =
        (tr ++ ((List.enumFrom i keys).map
            (fun p => reqEvents orc tpl now p.1 p.2)).flatten,
         .ok (applyKeys now i keys reg)) := by
  intro keys
  induction keys with
  | nil =>
    intro i reg tr _
    simp [generateLoop, applyKeys]
  | cons k rest ih =>
    intro i reg tr h
    obtain ⟨hg, ho, hp⟩ := h (i, k) (by simp [List.enumFrom])
    have hrest : loopCallsOk orc tpl (i + 1) rest := fun p hp2 =>
      h p (by simpa [List.enumFrom] using Or.inr hp2)
    unfold generateLoop
    rw [if_neg (by simp [hg])]
    simp only []
    rw [show (if k.got_pass_phrase then some k.pass_phrase else none) =
      reqPassPhrase k from rfl]
    rw [write_private_key_ok orc tpl now i k ho hp]
    simp only []
    rw [ih (i + 1) (set_key reg k.number.toNat i now) _ hrest]
    simp [List.enumFrom, applyKeys, reqEvents, List.append_assoc]

lemma generateLoop_error_code (orc : Oracle) (tpl : PrivTemplate)
    (now : Nat) :
    ∀ (keys : List KeyNumber) (i : Nat) (reg : Registry) (tr tr2 : List Event)
      (c : Nat),
      generateLoop orc tpl now keys i reg tr = (tr2, .error c) → c = 1 := by
  intro keys
  induction keys with
  | nil =>
    intro i reg tr tr2 c h
    simp [generateLoop] at h
  | cons k rest ih =>
    intro i reg tr tr2 c h
    unfold generateLoop at h
    by_cases hg : orc.genOk i = true
    · rw [if_neg (by simp [hg])] at h
      simp only [] at h
      rcases hw : write_private_key orc i i (privKeyFilename tpl k.number)
          k.number now (if k.got_pass_phrase then some k.pass_phrase
            else none) with c2 | content
      · rw [hw] at h
        unfold write_private_key at hw
        split_ifs at hw with h1 h2
        · cases hw
          cases h
          rfl
        · cases hw
          cases h
          rfl
      · rw [hw] at h
        exact ih _ _ _ _ _ h
    · rw [if_pos (by simp [hg])] at h
      cases h
      rfl

lemma generateLoop_gen_fail (orc : Oracle) (tpl : PrivTemplate)
    (now : Nat) :
    ∀ (ks1 : List KeyNumber) (k : KeyNumber) (ks2 : List KeyNumber)
      (i : Nat) (reg : Registry) (tr : List Event),
      loopCallsOk orc tpl i ks1 →
      orc.genOk (i + ks1.length) = false →
      generateLoop orc tpl now (ks1 ++ k :: ks2) i reg tr =
        (tr ++ ((List.enumFrom i ks1).map
            (fun p => reqEvents orc tpl now p.1 p.2)).flatten,
         .error 1) := by
  intro ks1
  induction ks1 with
  | nil =>
    intro k ks2 i reg tr _ hg
    simp only [List.length_nil, Nat.add_zero] at hg
    simp only [List.nil_append]
    unfold generateLoop
    rw [if_pos (by simp [hg])]
    simp [List.enumFrom]
  | cons k1 rest ih =>
    intro k ks2 i reg tr h hg
    obtain ⟨hg1, ho, hp⟩ := h (i, k1) (by simp [List.enumFrom])
    have hrest : loopCallsOk orc tpl (i + 1) rest := fun p hp2 =>
      h p (by simpa [List.enumFrom] using Or.inr hp2)
    simp only [List.cons_append]
    unfold generateLoop
    rw [if_neg (by simp [hg1])]
    simp only []
    rw [show (if k1.got_pass_phrase then some k1.pass_phrase else none) =
      reqPassPhrase k1 from rfl]
    rw [write_private_key_ok orc tpl now i k1 ho hp]
    simp only []
    rw [ih k ks2 (i + 1) (set_key reg k1.number.toNat i now) _ hrest
      (by simpa [Nat.add_comm, Nat.add_assoc, Nat.add_left_comm] using hg)]
    simp [List.enumFrom, reqEvents, List.append_assoc]

lemma processFlags_error_code :
    ∀ (flags : List FlagEvent) (st : FlagState) (c : Nat),
      processFlags flags st = .error c → c = 0 ∨ c = 1 := by
  intro flags
  induction flags with
  | nil =>
    intro st c h
    simp [processFlags] at h
  | cons e rest ih =>
    intro st c h
    cases e with
    | optA arg => exact ih _ _ h
    | optB arg => exact ih _ _ h
    | optP arg => exact ih _ _ h
    | optH =>
      cases h
      exact Or.inl rfl
    | optUnknown =>
      cases h
      exact Or.inr rfl

lemma processFlags_help :
    ∀ (pre post : List FlagEvent) (st : FlagState),
      (∀ e ∈ pre, e ≠ FlagEvent.optH ∧ e ≠ FlagEvent.optUnknown) →
      processFlags (pre ++ FlagEvent.optH :: post) st = .error 0 := by
  intro pre
  induction pre with
  | nil =>
    intro post st _
    rfl
  | cons e rest ih =>
    intro post st h
    have he := h e (List.mem_cons_self _ _)
    have hrest : ∀ x ∈ rest, x ≠ FlagEvent.optH ∧ x ≠ FlagEvent.optUnknown :=
      fun x hx => h x (List.mem_cons_of_mem _ hx)
    cases e with
    | optA arg => exact ih post _ hrest
    | optB arg => exact ih post _ hrest
    | optP arg => exact ih post _ hrest
    | optH => exact absurd rfl he.1
    | optUnknown => exact absurd rfl he.2

lemma processFlags_unknown :
    ∀ (pre post : List FlagEvent) (st : FlagState),
      (∀ e ∈ pre, e ≠ FlagEvent.optH ∧ e ≠ FlagEvent.optUnknown) →
      processFlags (pre ++ FlagEvent.optUnknown :: post) st = .error 1 := by
  intro pre
  induction pre with
  | nil =>
    intro post st _
    rfl
  | cons e rest ih =>
    intro post st h
    have he := h e (List.mem_cons_self _ _)
    have hrest : ∀ x ∈ rest, x ≠ FlagEvent.optH ∧ x ≠ FlagEvent.optUnknown :=
      fun x hx => h x (List.mem_cons_of_mem _ hx)
    cases e with
    | optA arg => exact ih post _ hrest
    | optB arg => exact ih post _ hrest
    | optP arg => exact ih post _ hrest
    | optH => exact absurd rfl he.1
    | optUnknown => exact absurd rfl he.2

lemma run_main_flags_ok (orc : Oracle) (flags : List FlagEvent)
    (args : List (List Char)) (cd : Option (List Char × Registry))
    (now : Nat) (st : FlagState)
    (h : processFlags flags initFlagState = .ok st) :
    run_main orc flags args cd now = run_after_flags orc args cd now st := by
  unfold run_main
  rw [h]

lemma run_main_flags_err (orc : Oracle) (flags : List FlagEvent)
    (args : List (List Char)) (cd : Option (List Char × Registry))
    (now : Nat) (c : Nat)
    (h : processFlags flags initFlagState = .error c) :
    run_main orc flags args cd now = ⟨c, []⟩ := by
  unfold run_main
  rw [h]

lemma resolvePubOutfile_error_code (st : FlagState)
    (cd : Option (List Char × Registry)) (c : Nat)
    (h : resolvePubOutfile st cd = .error c) : c = 1 := by
  unfold resolvePubOutfile at h
  split_ifs at h with h1 h2
  · cases h
    rfl
  · rcases cd with _ | pr
    · cases h
      rfl
    · simp only [] at h
      split_ifs at h with h3
      · cases h
        rfl

lemma run_after_flags_no_args (orc : Oracle)
    (cd : Option (List Char × Registry)) (now : Nat) (st : FlagState) :
    run_after_flags orc [] cd now st = ⟨1, []⟩ := rfl

lemma length_ge_one (args : List (List Char)) (h : args ≠ []) :
    ¬ (args.length < 1) := by
  have := List.length_pos.mpr h
  omega

lemma run_after_flags_pub_err (orc : Oracle) (args : List (List Char))
    (cd : Option (List Char × Registry)) (now : Nat) (st : FlagState)
    (c : Nat) (h : args ≠ []) (hr : resolvePubOutfile st cd = .error c) :
    run_after_flags orc args cd now st = ⟨c, []⟩ := by
  unfold run_after_flags
  rw [if_neg (length_ge_one args h), hr]

lemma run_after_flags_no_priv (orc : Oracle) (args : List (List Char))
    (cd : Option (List Char × Registry)) (now : Nat) (st : FlagState)
    (pr : List Char × Registry) (h : args ≠ [])
    (hr : resolvePubOutfile st cd = .ok pr)
    (hp : st.got_priv_outfile = false) :
    run_after_flags orc args cd now st = ⟨1, []⟩ := by
  unfold run_after_flags
  rw [if_neg (length_ge_one args h), hr]
  simp [hp]

lemma run_after_flags_priv_ext (orc : Oracle) (args : List (List Char))
    (cd : Option (List Char × Registry)) (now : Nat) (st : FlagState)
    (pr : List Char × Registry) (h : args ≠ [])
    (hr : resolvePubOutfile st cd = .ok pr)
    (hp : st.got_priv_outfile = true)
    (he : extensionOf st.priv_outfile ≠ "cxx".data) :
    run_after_flags orc args cd now st = ⟨1, []⟩ := by
  unfold run_after_flags
  rw [if_neg (length_ge_one args h), hr]
  simp [hp, he]

lemma run_after_flags_parse_err (orc : Oracle) (args : List (List Char))
    (cd : Option (List Char × Registry)) (now : Nat) (st : FlagState)
    (pr : List Char × Registry) (e : ParseKeyErr) (h : args ≠ [])
    (hr : resolvePubOutfile st cd = .ok pr)
    (hp : st.got_priv_outfile = true)
    (he : extensionOf st.priv_outfile = "cxx".data)
    (hparse : parseKeyList st.got_pass_phrase st.pass_phrase args =
      .error e) :
    run_after_flags orc args cd now st = ⟨1, []⟩ := by
  unfold run_after_flags
  rw [if_neg (length_ge_one args h), hr]
  simp [hp, he, hparse]

lemma run_after_flags_loop (orc : Oracle) (args : List (List Char))
    (cd : Option (List Char × Registry)) (now : Nat) (st : FlagState)
    (pr : List Char × Registry) (keys : List KeyNumber) (h : args ≠ [])
    (hr : resolvePubOutfile st cd = .ok pr)
    (hp : st.got_priv_outfile = true)
    (he : extensionOf st.priv_outfile = "cxx".data)
    (hparse : parseKeyList st.got_pass_phrase st.pass_phrase args =
      .ok keys) :
    run_after_flags orc args cd now st =
      (match generateLoop orc
          (splitHash (fullpathWoExtension st.priv_outfile)) now keys 0
          pr.2 [] with
       | (tr, .error c) => ⟨c, tr⟩
       | (tr, .ok reg) => writePubStage orc pr.1 reg tr) := by
  unfold run_after_flags
  rw [if_neg (length_ge_one args h), hr]
  simp [hp, he, hparse]

lemma writePubStage_code (orc : Oracle) (path : List Char)
    (reg : Registry) (tr : List Event) :
    (writePubStage orc path reg tr).exitCode = 0 ∨
      (writePubStage orc path reg tr).exitCode = 1 := by
  unfold writePubStage
  split_ifs <;> simp

lemma writePubStage_ok (orc : Oracle) (path : List Char) (reg : Registry)
    (tr : List Event) (hopen : orc.openOk path = true)
    (hpem : pubPemOkAll orc reg = true) :
    writePubStage orc path reg tr =
      ⟨0, tr ++ [.wrotePub path (write_public_keys orc.pemPub reg)]⟩ := by
  unfold writePubStage
  rw [if_neg (by simp [hopen]), if_neg (by simp [hpem])]

lemma run_after_flags_code (orc : Oracle) (args : List (List Char))
    (cd : Option (List Char × Registry)) (now : Nat) (st : FlagState) :
    (run_after_flags orc args cd now st).exitCode = 0 ∨
      (run_after_flags orc args cd now st).exitCode = 1 := by
  by_cases hargs : args = []
  · subst hargs
    rw [run_after_flags_no_args]
    exact Or.inr rfl
  · rcases hres : resolvePubOutfile st cd with c | pr
    · rw [run_after_flags_pub_err _ _ _ _ _ _ hargs hres]
      exact Or.inr (resolvePubOutfile_error_code _ _ _ hres)
    · rcases hpriv : st.got_priv_outfile with _ | _
      · rw [run_after_flags_no_priv _ _ _ _ _ _ hargs hres hpriv]
        exact Or.inr rfl
      · by_cases hext : extensionOf st.priv_outfile = "cxx".data
        · rcases hparse : parseKeyList st.got_pass_phrase st.pass_phrase
              args with e | keys
          · rw [run_after_flags_parse_err _ _ _ _ _ _ _ hargs hres hpriv
              hext hparse]
            exact Or.inr rfl
          · rw [run_after_flags_loop _ _ _ _ _ _ _ hargs hres hpriv hext
              hparse]
            rcases hloop : generateLoop orc
                (splitHash (fullpathWoExtension st.priv_outfile)) now keys
                0 pr.2 [] with ⟨tr, res⟩
            rcases res with c | reg
            · simp only []
              exact Or.inr (generateLoop_error_code _ _ _ _ _ _ _ _ _ hloop)
            · simp only []
              exact writePubStage_code orc pr.1 reg tr
        · rw [run_after_flags_priv_ext _ _ _ _ _ _ hargs hres hpriv hext]
          exact Or.inr rfl

/-- On a fully successful run: the trace is the per-request event pairs
in argument order followed by the one public-table write, and the exit
status is 0. -/
lemma run_main_success (orc : Oracle) (flags : List FlagEvent)
    (args : List (List Char)) (cd : Option (List Char × Registry))
    (now : Nat) (st : FlagState) (pr : List Char × Registry)
    (keys : List KeyNumber)
    (hst : processFlags flags initFlagState = .ok st) (hargs : args ≠ [])
    (hres : resolvePubOutfile st cd = .ok pr)
    (hpriv : st.got_priv_outfile = true)
    (hext : extensionOf st.priv_outfile = "cxx".data)
    (hparse : parseKeyList st.got_pass_phrase st.pass_phrase args =
      .ok keys)
    (hloop : loopCallsOk orc
      (splitHash (fullpathWoExtension st.priv_outfile)) 0 keys)
    (hopen : orc.openOk pr.1 = true)
    (hpem : pubPemOkAll orc (applyKeys now 0 keys pr.2) = true) :
    run_main orc flags args cd now =
      ⟨0, ((List.enumFrom 0 keys).map (fun p =>
          reqEvents orc (splitHash (fullpathWoExtension st.priv_outfile))
            now p.1 p.2)).flatten ++
        [.wrotePub pr.1
          (write_public_keys orc.pemPub (applyKeys now 0 keys pr.2))]⟩ := by
  rw [run_main_flags_ok _ _ _ _ _ _ hst,
    run_after_flags_loop _ _ _ _ _ _ _ hargs hres hpriv hext hparse,
    generateLoop_ok _ _ _ _ _ _ _ hloop]
  simp only []
  rw [writePubStage_ok _ _ _ _ hopen hpem]
  simp

lemma run_after_flags_zero (orc : Oracle) (args : List (List Char))
    (cd : Option (List Char × Registry)) (now : Nat) (st : FlagState)
    (h : (run_after_flags orc args cd now st).exitCode = 0) :
    ∃ p f, (run_after_flags orc args cd now st).events.getLast? =
      some (.wrotePub p f) := by
  by_cases hargs : args = []
  · subst hargs
    rw [run_after_flags_no_args] at h
    cases h
  · rcases hres : resolvePubOutfile st cd with c | pr
    · rw [run_after_flags_pub_err _ _ _ _ _ _ hargs hres] at h
      have := resolvePubOutfile_error_code _ _ _ hres
      simp at h
      omega
    · rcases hpriv : st.got_priv_outfile with _ | _
      · rw [run_after_flags_no_priv _ _ _ _ _ _ hargs hres hpriv] at h
        cases h
      · by_cases hext : extensionOf st.priv_outfile = "cxx".data
        · rcases hparse : parseKeyList st.got_pass_phrase st.pass_phrase
              args with e | keys
          · rw [run_after_flags_parse_err _ _ _ _ _ _ _ hargs hres hpriv
              hext hparse] at h
            cases h
          · rw [run_after_flags_loop _ _ _ _ _ _ _ hargs hres hpriv hext
              hparse] at h
            rw [run_after_flags_loop _ _ _ _ _ _ _ hargs hres hpriv hext
              hparse]
            rcases hloop : generateLoop orc
                (splitHash (fullpathWoExtension st.priv_outfile)) now keys
                0 pr.2 [] with ⟨tr, res⟩
            rw [hloop] at h
            rcases res with c | reg
            · simp only [] at h
              have := generateLoop_error_code _ _ _ _ _ _ _ _ _ hloop
              omega
            · simp only [] at h ⊢
              unfold writePubStage at h ⊢
              split_ifs at h ⊢ with h1 h2
              exact ⟨pr.1, write_public_keys orc.pemPub reg,
                by simp [List.getLast?_concat]⟩
        · rw [run_after_flags_priv_ext _ _ _ _ _ _ hargs hres hpriv
            hext] at h
          cases h

/-- C6: the process exits 0 exactly on full success or when `-h` is
reached in the option scan, and exits 1 on every failure: an unknown
flag, too few positional arguments, a wrong output-file extension, a
missing `-b`, a missing `-a` with no compiled-in default, a malformed or
non-positive trust-level token, an output-file open failure, or an
underlying cryptographic allocation, key-generation or key-serialization
failure.  The exit status is never anything but 0 or 1, an exit 0 run
that did not stop at `-h` always ends in the public-table write, and the
fully successful run exits 0. -/
theorem C6_exit_status (orc : Oracle) (flags : List FlagEvent)
    (args : List (List Char)) (cd : Option (List Char × Registry))
    (now : Nat) :
    ((run_main orc flags args cd now).exitCode = 0 ∨
      (run_main orc flags args cd now).exitCode = 1) ∧
    (∀ pre post,
      (∀ e ∈ pre, e ≠ FlagEvent.optH ∧ e ≠ FlagEvent.optUnknown) →
      flags = pre ++ FlagEvent.optH :: post →
      (run_main orc flags args cd now).exitCode = 0) ∧
    (∀ pre post,
      (∀ e ∈ pre, e ≠ FlagEvent.optH ∧ e ≠ FlagEvent.optUnknown) →
      flags = pre ++ FlagEvent.optUnknown :: post →
      (run_main orc flags args cd now).exitCode = 1) ∧
    (∀ st, processFlags flags initFlagState = .ok st → args = [] →
      (run_main orc flags args cd now).exitCode = 1) ∧
    (∀ st, processFlags flags initFlagState = .ok st → args ≠ [] →
      st.got_pub_outfile = true →
      extensionOf st.pub_outfile ≠ "cxx".data →
      (run_main orc flags args cd now).exitCode = 1) ∧
    (∀ st, processFlags flags initFlagState = .ok st → args ≠ [] →
      st.got_pub_outfile = false → cd = none →
      (run_main orc flags args cd now).exitCode = 1) ∧
    (∀ st, processFlags flags initFlagState = .ok st → args ≠ [] →
      st.got_priv_outfile = false →
      (run_main orc flags args cd now).exitCode = 1) ∧
    (∀ st, processFlags flags initFlagState = .ok st → args ≠ [] →
      st.got_priv_outfile = true →
      extensionOf st.priv_outfile ≠ "cxx".data →
      (run_main orc flags args cd now).exitCode = 1) ∧
    (∀ st e, processFlags flags initFlagState = .ok st → args ≠ [] →
      parseKeyList st.got_pass_phrase st.pass_phrase args = .error e →
      (run_main orc flags args cd now).exitCode = 1) ∧
    (∀ st pr keys tr c, processFlags flags initFlagState = .ok st →
      args ≠ [] → resolvePubOutfile st cd = .ok pr →
      st.got_priv_outfile = true →
      extensionOf st.priv_outfile = "cxx".data →
      parseKeyList st.got_pass_phrase st.pass_phrase args = .ok keys →
      generateLoop orc (splitHash (fullpathWoExtension st.priv_outfile))
        now keys 0 pr.2 [] = (tr, .error c) →
      (run_main orc flags args cd now).exitCode = 1) ∧
    (∀ st pr keys tr reg, processFlags flags initFlagState = .ok st →
      args ≠ [] → resolvePubOutfile st cd = .ok pr →
      st.got_priv_outfile = true →
      extensionOf st.priv_outfile = "cxx".data →
      parseKeyList st.got_pass_phrase st.pass_phrase args = .ok keys →
      generateLoop orc (splitHash (fullpathWoExtension st.priv_outfile))
        now keys 0 pr.2 [] = (tr, .ok reg) →
      (orc.openOk pr.1 = false ∨ pubPemOkAll orc reg = false) →
      (run_main orc flags args cd now).exitCode = 1) ∧
    ((run_main orc flags args cd now).exitCode = 0 →
      processFlags flags initFlagState = .error 0 ∨
      ∃ p f, (run_main orc flags args cd now).events.getLast? =
        some (.wrotePub p f)) ∧
    (∀ st pr keys, processFlags flags initFlagState = .ok st →
      args ≠ [] → resolvePubOutfile st cd = .ok pr →
      st.got_priv_outfile = true →
      extensionOf st.priv_outfile = "cxx".data →
      parseKeyList st.got_pass_phrase st.pass_phrase args = .ok keys →
      loopCallsOk orc (splitHash (fullpathWoExtension st.priv_outfile))
        0 keys →
      orc.openOk pr.1 = true →
      pubPemOkAll orc (applyKeys now 0 keys pr.2) = true →
      (run_main orc flags args cd now).exitCode = 0) := by
  refine ⟨?_, ?_, ?_, ?_, ?_, ?_, ?_, ?_, ?_, ?_, ?_, ?_, ?_⟩
  · rcases hproc : processFlags flags initFlagState with c | st
    · rw [run_main_flags_err _ _ _ _ _ _ hproc]
      simpa using processFlags_error_code _ _ _ hproc
    · rw [run_main_flags_ok _ _ _ _ _ _ hproc]
      exact run_after_flags_code orc args cd now st
  · intro pre post hpre hflags
    subst hflags
    rw [run_main_flags_err _ _ _ _ _ _ (processFlags_help pre post _ hpre)]
  · intro pre post hpre hflags
    subst hflags
    rw [run_main_flags_err _ _ _ _ _ _
      (processFlags_unknown pre post _ hpre)]
  · intro st hst hargs
    subst hargs
    rw [run_main_flags_ok _ _ _ _ _ _ hst, run_after_flags_no_args]
  · intro st hst hargs hgot hext
    rw [run_main_flags_ok _ _ _ _ _ _ hst]
    have hr : resolvePubOutfile st cd = .error 1 := by
      unfold resolvePubOutfile
      rw [if_pos hgot, if_pos hext]
    rw [run_after_flags_pub_err _ _ _ _ _ _ hargs hr]
  · intro st hst hargs hgot hcd
    subst hcd
    rw [run_main_flags_ok _ _ _ _ _ _ hst]
    have hr : resolvePubOutfile st none = .error 1 := by
      simp [resolvePubOutfile, hgot]
    rw [run_after_flags_pub_err _ _ _ _ _ _ hargs hr]
  · intro st hst hargs hpriv
    rw [run_main_flags_ok _ _ _ _ _ _ hst]
    rcases hres : resolvePubOutfile st cd with c | pr
    · rw [run_after_flags_pub_err _ _ _ _ _ _ hargs hres]
      exact resolvePubOutfile_error_code _ _ _ hres
    · rw [run_after_flags_no_priv _ _ _ _ _ _ hargs hres hpriv]
  · intro st hst hargs hpriv hext
    rw [run_main_flags_ok _ _ _ _ _ _ hst]
    rcases hres : resolvePubOutfile st cd with c | pr
    · rw [run_after_flags_pub_err _ _ _ _ _ _ hargs hres]
      exact resolvePubOutfile_error_code _ _ _ hres
    · rw [run_after_flags_priv_ext _ _ _ _ _ _ hargs hres hpriv hext]
  · intro st e hst hargs hparse
    rw [run_main_flags_ok _ _ _ _ _ _ hst]
    rcases hres : resolvePubOutfile st cd with c | pr
    · rw [run_after_flags_pub_err _ _ _ _ _ _ hargs hres]
      exact resolvePubOutfile_error_code _ _ _ hres
    · rcases hpriv : st.got_priv_outfile with _ | _
      · rw [run_after_flags_no_priv _ _ _ _ _ _ hargs hres hpriv]
      · by_cases hext : extensionOf st.priv_outfile = "cxx".data
        · rw [run_after_flags_parse_err _ _ _ _ _ _ _ hargs hres hpriv
            hext hparse]
        · rw [run_after_flags_priv_ext _ _ _ _ _ _ hargs hres hpriv hext]
  · intro st pr keys tr c hst hargs hres hpriv hext hparse hloop
    rw [run_main_flags_ok _ _ _ _ _ _ hst,
      run_after_flags_loop _ _ _ _ _ _ _ hargs hres hpriv hext hparse,
      hloop]
    simp only []
    exact generateLoop_error_code _ _ _ _ _ _ _ _ _ hloop
  · intro st pr keys tr reg hst hargs hres hpriv hext hparse hloop hfail
    rw [run_main_flags_ok _ _ _ _ _ _ hst,
      run_after_flags_loop _ _ _ _ _ _ _ hargs hres hpriv hext hparse,
      hloop]
    simp only []
    unfold writePubStage
    rcases hfail with hfail | hfail
    · rw [if_pos (by simp [hfail])]
    · by_cases hopen : orc.openOk pr.1 = true
      · rw [if_neg (by simp [hopen]), if_pos (by simp [hfail])]
      · rw [if_pos (by simpa using hopen)]
  · intro h
    rcases hproc : processFlags flags initFlagState with c | st
    · left
      rw [run_main_flags_err _ _ _ _ _ _ hproc] at h
      simp at h
      subst h
      rfl
    · right
      rw [run_main_flags_ok _ _ _ _ _ _ hproc] at h ⊢
      exact run_after_flags_zero orc args cd now st h
  · intro st pr keys hst hargs hres hpriv hext hparse hloop hopen hpem
    rw [run_main_success orc flags args cd now st pr keys hst hargs hres
      hpriv hext hparse hloop hopen hpem]

/-- C6 witness: a concrete fully successful run — `-a pub.cxx -b
priv.cxx 1` with every external call succeeding — exits 0. -/
theorem C6_witness :
    (run_main
      ⟨fun _ => true, fun _ => true, fun _ => true, fun _ _ => [65],
        fun _ => true, fun _ => [66]⟩
      [.optA "pub.cxx".data, .optB "priv.cxx".data] [['1']] none
      5).exitCode = 0 := by
  have h := (C6_exit_status
    ⟨fun _ => true, fun _ => true, fun _ => true, fun _ _ => [65],
      fun _ => true, fun _ => [66]⟩
    [.optA "pub.cxx".data, .optB "priv.cxx".data] [['1']] none
    5).2.2.2.2.2.2.2.2.2.2.2.2
  exact h ⟨"pub.cxx".data, true, "priv.cxx".data, true, [], false⟩
    ("pub.cxx".data, []) [⟨1, false, []⟩] rfl (by simp) rfl rfl rfl rfl
    (fun p hp => by
      simp [List.enumFrom] at hp
      subst hp
      exact ⟨rfl, rfl, rfl⟩)
    rfl rfl

/-- C7: path validation.  A `-a` path whose extension is not `.cxx` is
fatal; with `-a` omitted the compiled-in default path (and its
pre-loaded registry) is used when available and its absence is fatal;
`-b` is mandatory — omitting it is fatal — and its path must carry the
`.cxx` extension, a wrong extension being fatal. -/
theorem C7_path_validation :
    (∀ (st : FlagState) (cd : Option (List Char × Registry)),
      st.got_pub_outfile = true →
      extensionOf st.pub_outfile ≠ "cxx".data →
      resolvePubOutfile st cd = .error 1) ∧
    (∀ (st : FlagState) (pr : List Char × Registry),
      st.got_pub_outfile = false → pr.1 ≠ [] →
      resolvePubOutfile st (some pr) = .ok pr) ∧
    (∀ st : FlagState, st.got_pub_outfile = false →
      resolvePubOutfile st none = .error 1) ∧
    (∀ (orc : Oracle) (flags : List FlagEvent) (args : List (List Char))
      (cd : Option (List Char × Registry)) (now : Nat) (st : FlagState),
      processFlags flags initFlagState = .ok st → args ≠ [] →
      st.got_priv_outfile = false →
      (run_main orc flags args cd now).exitCode = 1) ∧
    (∀ (orc : Oracle) (flags : List FlagEvent) (args : List (List Char))
      (cd : Option (List Char × Registry)) (now : Nat) (st : FlagState),
      processFlags flags initFlagState = .ok st → args ≠ [] →
      st.got_priv_outfile = true →
      extensionOf st.priv_outfile ≠ "cxx".data →
      (run_main orc flags args cd now).exitCode = 1) := by
  refine ⟨?_, ?_, ?_, ?_, ?_⟩
  · intro st cd hgot hext
    unfold resolvePubOutfile
    rw [if_pos hgot, if_pos hext]
  · intro st pr hgot hne
    unfold resolvePubOutfile
    rw [if_neg (by simp [hgot])]
    simp [hne]
  · intro st hgot
    simp [resolvePubOutfile, hgot]
  · intro orc flags args cd now st hst hargs hpriv
    rw [run_main_flags_ok _ _ _ _ _ _ hst]
    rcases hres : resolvePubOutfile st cd with c | pr
    · rw [run_after_flags_pub_err _ _ _ _ _ _ hargs hres]
      exact resolvePubOutfile_error_code _ _ _ hres
    · rw [run_after_flags_no_priv _ _ _ _ _ _ hargs hres hpriv]
  · intro orc flags args cd now st hst hargs hpriv hext
    rw [run_main_flags_ok _ _ _ _ _ _ hst]
    rcases hres : resolvePubOutfile st cd with c | pr
    · rw [run_after_flags_pub_err _ _ _ _ _ _ hargs hres]
      exact resolvePubOutfile_error_code _ _ _ hres
    · rw [run_after_flags_priv_ext _ _ _ _ _ _ hargs hres hpriv hext]

/-- C7 witness: with `-a` omitted and no compiled-in default, validation
is fatal. -/
theorem C7_witness :
    resolvePubOutfile ⟨[], false, [], false, [], false⟩ none = .error 1 :=
  C7_path_validation.2.2.1 ⟨[], false, [], false, [], false⟩ rfl

/-- C8: processing follows argument order.  On a fully successful run
the trace is, for each request in order, its `generate_key` event
immediately followed by its private-key file write, and after all of
them exactly one public-table write; no event of the per-request part is
a public write.  When the `j`-th request's key generation fails, the
trace holds exactly the private-key writes of the `j` earlier requests —
their files are already on disk — and no public write, with exit
status 1. -/
theorem C8_processing_order (orc : Oracle) (flags : List FlagEvent)
    (args : List (List Char)) (cd : Option (List Char × Registry))
    (now : Nat) (st : FlagState) (pr : List Char × Registry)
    (keys : List KeyNumber)
    (hst : processFlags flags initFlagState = .ok st) (hargs : args ≠ [])
    (hres : resolvePubOutfile st cd = .ok pr)
    (hpriv : st.got_priv_outfile = true)
    (hext : extensionOf st.priv_outfile = "cxx".data)
    (hparse : parseKeyList st.got_pass_phrase st.pass_phrase args =
      .ok keys) :
    (loopCallsOk orc (splitHash (fullpathWoExtension st.priv_outfile))
        0 keys →
      orc.openOk pr.1 = true →
      pubPemOkAll orc (applyKeys now 0 keys pr.2) = true →
      (run_main orc flags args cd now).events =
        ((List.enumFrom 0 keys).map (fun p =>
          reqEvents orc (splitHash (fullpathWoExtension st.priv_outfile))
            now p.1 p.2)).flatten ++
        [.wrotePub pr.1
          (write_public_keys orc.pemPub (applyKeys now 0 keys pr.2))] ∧
      (∀ e ∈ ((List.enumFrom 0 keys).map (fun p =>
          reqEvents orc (splitHash (fullpathWoExtension st.priv_outfile))
            now p.1 p.2)).flatten,
        ∀ p f, e ≠ .wrotePub p f)) ∧
    (∀ ks1 k ks2, keys = ks1 ++ k :: ks2 →
      loopCallsOk orc (splitHash (fullpathWoExtension st.priv_outfile))
        0 ks1 →
      orc.genOk ks1.length = false →
      (run_main orc flags args cd now).events =
        ((List.enumFrom 0 ks1).map (fun p =>
          reqEvents orc (splitHash (fullpathWoExtension st.priv_outfile))
            now p.1 p.2)).flatten ∧
      (run_main orc flags args cd now).exitCode = 1) := by
  constructor
  · intro hloop hopen hpem
    rw [run_main_success orc flags args cd now st pr keys hst hargs hres
      hpriv hext hparse hloop hopen hpem]
    refine ⟨rfl, ?_⟩
    intro e he p f
    rcases List.mem_flatten.mp he with ⟨l, hl, hel⟩
    rcases List.mem_map.mp hl with ⟨q, _, rfl⟩
    simp only [reqEvents, List.mem_cons, List.mem_singleton] at hel
    rcases hel with h | h | h
    · subst h
      simp
    · subst h
      simp
    · cases h
  · intro ks1 k ks2 hkeys hok hg
    subst hkeys
    rw [run_main_flags_ok _ _ _ _ _ _ hst,
      run_after_flags_loop _ _ _ _ _ _ _ hargs hres hpriv hext hparse,
      generateLoop_gen_fail _ _ _ ks1 k ks2 0 pr.2 [] hok
        (by simpa using hg)]
    simp

/-- C8 witness: the success clause at a concrete one-request run. -/
theorem C8_witness :
    (run_main
      ⟨fun _ => true, fun _ => true, fun _ => true, fun _ _ => [65],
        fun _ => true, fun _ => [66]⟩
      [.optA "pub.cxx".data, .optB "priv.cxx".data] [['1']] none
      5).events =
    ((List.enumFrom 0 [(⟨1, false, []⟩ : KeyNumber)]).map (fun p =>
      reqEvents
        ⟨fun _ => true, fun _ => true, fun _ => true, fun _ _ => [65],
          fun _ => true, fun _ => [66]⟩
        (splitHash (fullpathWoExtension "priv.cxx".data)) 5
        p.1 p.2)).flatten ++
    [.wrotePub "pub.cxx".data
      (write_public_keys (fun _ => [66])
        (applyKeys 5 0 [(⟨1, false, []⟩ : KeyNumber)] []))] := by
  have h := (C8_processing_order
    ⟨fun _ => true, fun _ => true, fun _ => true, fun _ _ => [65],
      fun _ => true, fun _ => [66]⟩
    [.optA "pub.cxx".data, .optB "priv.cxx".data] [['1']] none 5
    ⟨"pub.cxx".data, true, "priv.cxx".data, true, [], false⟩
    ("pub.cxx".data, []) [⟨1, false, []⟩] rfl (by simp) rfl rfl rfl
    rfl).1
    (fun p hp => by
      simp [List.enumFrom] at hp
      subst hp
      exact ⟨rfl, rfl, rfl⟩)
    rfl rfl
  exact h.1

lemma generateLoop_priv_time (orc : Oracle) (tpl : PrivTemplate)
    (now : Nat) :
    ∀ (keys : List KeyNumber) (i : Nat) (reg : Registry)
      (tr : List Event),
      (∀ fname c, Event.wrotePriv fname c ∈ tr → c.generatedTime = now) →
      ∀ fname c,
        Event.wrotePriv fname c ∈ (generateLoop orc tpl now keys i reg tr).1 →
        c.generatedTime = now := by
  intro keys
  induction keys with
  | nil =>
    intro i reg tr htr fname c hc
    exact htr fname c hc
  | cons k rest ih =>
    intro i reg tr htr fname c hc
    unfold generateLoop at hc
    by_cases hg : orc.genOk i = true
    · rw [if_neg (by simp [hg])] at hc
      simp only [] at hc
      rcases hw : write_private_key orc i i (privKeyFilename tpl k.number)
          k.number now (if k.got_pass_phrase then some k.pass_phrase
            else none) with c2 | content
      · rw [hw] at hc
        simp only [] at hc
        rcases (List.mem_append.mp hc) with hin | hin
        · exact htr fname c hin
        · simp at hin
      · rw [hw] at hc
        refine ih (i + 1) _ _ ?_ fname c hc
        intro fn c3 hc3
        rcases List.mem_append.mp hc3 with hin | hin
        · exact htr fn c3 hin
        · simp only [List.mem_cons, List.mem_singleton] at hin
          rcases hin with h | h | h
          · cases h
          · injection h with hfn hc3
            subst hc3
            unfold write_private_key at hw
            split_ifs at hw
            all_goals (cases hw; rfl)
          · cases h
    · rw [if_pos (by simpa using hg)] at hc
      exact htr fname c hc

lemma generateLoop_reg_time (orc : Oracle) (tpl : PrivTemplate)
    (now : Nat) :
    ∀ (keys : List KeyNumber) (i : Nat) (reg : Registry)
      (tr tr2 : List Event) (reg2 : Registry),
      generateLoop orc tpl now keys i reg tr = (tr2, .ok reg2) →
      ∀ m e, get_slot reg2 m = some e →
        get_slot reg m = some e ∨ e.2 = now := by
  intro keys
  induction keys with
  | nil =>
    intro i reg tr tr2 reg2 h m e he
    simp [generateLoop] at h
    rw [← h.2] at he
    exact Or.inl he
  | cons k rest ih =>
    intro i reg tr tr2 reg2 h m e he
    unfold generateLoop at h
    by_cases hg : orc.genOk i = true
    · rw [if_neg (by simp [hg])] at h
      simp only [] at h
      rcases hw : write_private_key orc i i (privKeyFilename tpl k.number)
          k.number now (if k.got_pass_phrase then some k.pass_phrase
            else none) with c2 | content
      · rw [hw] at h
        simp only [Prod.mk.injEq] at h
        simp at h
      · rw [hw] at h
        rcases ih (i + 1) _ _ _ _ h m e he with hin | hnow
        · by_cases hm : m = k.number.toNat
          · subst hm
            rw [get_slot_set_key_self] at hin
            cases hin
            exact Or.inr rfl
          · rw [get_slot_set_key_ne _ _ _ _ _ hm] at hin
            exact Or.inl hin
        · exact Or.inr hnow
    · rw [if_pos (by simpa using hg)] at h
      simp only [Prod.mk.injEq] at h
      simp at h

/-- C9: one run, one timestamp.  `main` reads the clock once (line 436)
before the loop; on any path through the run, every private-key file
written carries `GENERATED_TIME` equal to that single value, and every
registry entry the loop records (everything not already present in the
pre-loaded registry) carries the same value. -/
theorem C9_single_timestamp (orc : Oracle) (flags : List FlagEvent)
    (args : List (List Char)) (cd : Option (List Char × Registry))
    (now : Nat) (st : FlagState) (pr : List Char × Registry)
    (keys : List KeyNumber)
    (hst : processFlags flags initFlagState = .ok st) (hargs : args ≠ [])
    (hres : resolvePubOutfile st cd = .ok pr)
    (hpriv : st.got_priv_outfile = true)
    (hext : extensionOf st.priv_outfile = "cxx".data)
    (hparse : parseKeyList st.got_pass_phrase st.pass_phrase args =
      .ok keys) :
    (∀ fname content,
      Event.wrotePriv fname content ∈ (run_main orc flags args cd now).events →
      content.generatedTime = now) ∧
    (∀ tr reg,
      generateLoop orc (splitHash (fullpathWoExtension st.priv_outfile))
        now keys 0 pr.2 [] = (tr, .ok reg) →
      ∀ m e, get_slot reg m = some e →
        get_slot pr.2 m = some e ∨ e.2 = now) := by
  constructor
  · intro fname content hmem
    rw [run_main_flags_ok _ _ _ _ _ _ hst,
      run_after_flags_loop _ _ _ _ _ _ _ hargs hres hpriv hext
        hparse] at hmem
    rcases hloop : generateLoop orc
        (splitHash (fullpathWoExtension st.priv_outfile)) now keys 0
        pr.2 [] with ⟨tr, res⟩
    rw [hloop] at hmem
    have hall := generateLoop_priv_time orc
      (splitHash (fullpathWoExtension st.priv_outfile)) now keys 0 pr.2 []
      (by simp) fname content
    rw [hloop] at hall
    rcases res with c | reg
    · simp only [] at hmem
      exact hall hmem
    · simp only [] at hmem hall
      unfold writePubStage at hmem
      split_ifs at hmem
      · exact hall (by simpa using hmem)
      · exact hall (by simpa using hmem)
      · simp at hmem
        exact hall hmem
  · intro tr reg hloop
    exact generateLoop_reg_time orc _ now keys 0 pr.2 [] tr reg hloop

/-- C9 witness: the private file of a concrete run carries the run's
timestamp. -/
theorem C9_witness :
    (privContent
      ⟨fun _ => true, fun _ => true, fun _ => true, fun _ _ => [65],
        fun _ => true, fun _ => [66]⟩
      (splitHash (fullpathWoExtension "priv.cxx".data)) 5 0
      ⟨1, false, []⟩).generatedTime = 5 :=
  (C9_single_timestamp
    ⟨fun _ => true, fun _ => true, fun _ => true, fun _ _ => [65],
      fun _ => true, fun _ => [66]⟩
    [.optA "pub.cxx".data, .optB "priv.cxx".data] [['1']] none 5
    ⟨"pub.cxx".data, true, "priv.cxx".data, true, [], false⟩
    ("pub.cxx".data, []) [⟨1, false, []⟩] rfl (by simp) rfl rfl rfl
    rfl).1
    (privKeyFilename (splitHash (fullpathWoExtension "priv.cxx".data)) 1)
    (privContent
      ⟨fun _ => true, fun _ => true, fun _ => true, fun _ _ => [65],
        fun _ => true, fun _ => [66]⟩
      (splitHash (fullpathWoExtension "priv.cxx".data)) 5 0
      ⟨1, false, []⟩)
    (by decide)

/-- The private-key files finally on disk after a run: later writes to
the same path replace earlier ones (`Filename::open_write` truncates). -/
def finalFs (evs : List Event) : List Char → Option PrivFileContent :=
  evs.foldl (fun fs e =>
    match e with
    | .wrotePriv fname c => fun p => if p = fname then some c else fs p
    | _ => fs) (fun _ => none)

/-- C10: a trust level appearing twice among the positional arguments.
Each occurrence generates a fresh key pair (distinct `generate_key` call
indices 0 and 1 in the trace), both occurrences compute the same output
filename, the registry slot for the level ends holding the second
call's key with the run timestamp, and the file finally on disk is the
second occurrence's content — the first occurrence's key pair is
discarded. -/
theorem C10_duplicate_levels (orc : Oracle) (flags : List FlagEvent)
    (args : List (List Char)) (cd : Option (List Char × Registry))
    (now : Nat) (st : FlagState) (pr : List Char × Registry)
    (k1 k2 : KeyNumber)
    (hst : processFlags flags initFlagState = .ok st) (hargs : args ≠ [])
    (hres : resolvePubOutfile st cd = .ok pr)
    (hpriv : st.got_priv_outfile = true)
    (hext : extensionOf st.priv_outfile = "cxx".data)
    (hparse : parseKeyList st.got_pass_phrase st.pass_phrase args =
      .ok [k1, k2])
    (hnum : k1.number = k2.number)
    (hloop : loopCallsOk orc
      (splitHash (fullpathWoExtension st.priv_outfile)) 0 [k1, k2])
    (hopen : orc.openOk pr.1 = true)
    (hpem : pubPemOkAll orc (applyKeys now 0 [k1, k2] pr.2) = true) :
    (run_main orc flags args cd now).events =
      [.genKey 0 k1.number,
       .wrotePriv
         (privKeyFilename
           (splitHash (fullpathWoExtension st.priv_outfile)) k1.number)
         (privContent orc
           (splitHash (fullpathWoExtension st.priv_outfile)) now 0 k1),
       .genKey 1 k2.number,
       .wrotePriv
         (privKeyFilename
           (splitHash (fullpathWoExtension st.priv_outfile)) k2.number)
         (privContent orc
           (splitHash (fullpathWoExtension st.priv_outfile)) now 1 k2),
       .wrotePub pr.1
         (write_public_keys orc.pemPub (applyKeys now 0 [k1, k2] pr.2))] ∧
    privKeyFilename (splitHash (fullpathWoExtension st.priv_outfile))
        k1.number =
      privKeyFilename (splitHash (fullpathWoExtension st.priv_outfile))
        k2.number ∧
    get_slot (applyKeys now 0 [k1, k2] pr.2) k2.number.toNat =
      some (1, now) ∧
    finalFs (run_main orc flags args cd now).events
        (privKeyFilename
          (splitHash (fullpathWoExtension st.priv_outfile)) k2.number) =
      some (privContent orc
        (splitHash (fullpathWoExtension st.priv_outfile)) now 1 k2) := by
  have htrace := run_main_success orc flags args cd now st pr [k1, k2]
    hst hargs hres hpriv hext hparse hloop hopen hpem
  have hfname : privKeyFilename
      (splitHash (fullpathWoExtension st.priv_outfile)) k1.number =
    privKeyFilename
      (splitHash (fullpathWoExtension st.priv_outfile)) k2.number := by
    rw [hnum]
  refine ⟨?_, hfname, ?_, ?_⟩
  · rw [htrace]
    simp [List.enumFrom, reqEvents]
  · have happ : applyKeys now 0 [k1, k2] pr.2 =
        set_key (set_key pr.2 k1.number.toNat 0 now) k2.number.toNat 1
          now := rfl
    rw [happ, get_slot_set_key_self]
  · rw [htrace]
    simp [List.enumFrom, reqEvents, finalFs]

/-- C10 witness: the registry and file-system clauses at a concrete run
`-a pub.cxx -b priv.cxx 2 2`. -/
theorem C10_witness :
    get_slot (applyKeys 5 0
        [(⟨2, false, []⟩ : KeyNumber), (⟨2, false, []⟩ : KeyNumber)] [])
        (2 : Int).toNat = some (1, 5) ∧
    finalFs (run_main
        ⟨fun _ => true, fun _ => true, fun _ => true, fun _ _ => [65],
          fun _ => true, fun _ => [66]⟩
        [.optA "pub.cxx".data, .optB "priv.cxx".data] [['2'], ['2']] none
        5).events
      (privKeyFilename (splitHash (fullpathWoExtension "priv.cxx".data))
        (2 : Int)) =
      some (privContent
        ⟨fun _ => true, fun _ => true, fun _ => true, fun _ _ => [65],
          fun _ => true, fun _ => [66]⟩
        (splitHash (fullpathWoExtension "priv.cxx".data)) 5 1
        ⟨2, false, []⟩) := by
  have h := C10_duplicate_levels
    ⟨fun _ => true, fun _ => true, fun _ => true, fun _ _ => [65],
      fun _ => true, fun _ => [66]⟩
    [.optA "pub.cxx".data, .optB "priv.cxx".data] [['2'], ['2']] none 5
    ⟨"pub.cxx".data, true, "priv.cxx".data, true, [], false⟩
    ("pub.cxx".data, []) ⟨2, false, []⟩ ⟨2, false, []⟩ rfl (by simp) rfl
    rfl rfl rfl rfl
    (fun p hp => by
      simp [List.enumFrom] at hp
      rcases hp with hp | hp <;> subst hp <;> exact ⟨rfl, rfl, rfl⟩)
    rfl rfl
  exact ⟨h.2.2.1, h.2.2.2⟩

end MakePrcKey
